import Mathlib

/-!
Verification of the espresso site model against its specification.

The development embeds the Go sources shallowly:

* Namespace V1 embeds src/build/site.go: the route tree (Site / Route),
  registerPage and the depth-bounded walker (WalkRoutes / walkRoute).
  Go maps are embedded as association lists; the map key lookup and
  assignment become lookupChild and setChild.  Go strings are embedded
  as Lean strings, with byte indices read as character indices (all the
  paths involved are ASCII, where the two coincide).

* Namespace V2 embeds the builder passes of the second build source file
  (buildPage, buildListPages, addArticlePagesToIndexPages, buildRelated).
  These passes run against a newer site model (RouteInfo, resolvePath,
  a path-reporting WalkRoutes) whose source file is not part of src/;
  that model is reconstructed from the specification and each such
  definition carries a doc comment starting with: Modelled from the spec.

Machine integers (Go int) are embedded as Int, time.Time instants as Int
(Date.After becomes strict greater-than on the instant).
-/

set_option autoImplicit false

namespace Espresso

/-- Splits a character list at every occurrence of the separator, mirroring
Go strings.Split with a single-character separator: the empty input yields
one empty field, adjacent separators yield empty fields, and a trailing
separator yields a final empty field. -/
def splitChars (sep : Char) : List Char → List (List Char)
  | [] => [[]]
  | c :: cs =>
    if c = sep then [] :: splitChars sep cs
    else
      match splitChars sep cs with
      | [] => [[c]]
      | f :: rest => (c :: f) :: rest

/-- Embedding of Go strings.Split(s, sep) for a one-character separator. -/
def goSplit (s : String) (sep : Char) : List String :=
  (splitChars sep s.data).map (fun cs => ⟨cs⟩)

/-- Embedding of Go filepath.Join applied to plain path segments: empty
elements are ignored and the remaining ones are joined with a slash.  The
Clean step Go performs afterwards is the identity on the segment lists that
arise here (segments contain no slashes and no dot components). -/
def filepathJoin (segs : List String) : String :=
  String.intercalate "/" (segs.filter (fun s => s != ""))

namespace V1

/-- Embedding of model.ArticlePage as used by src/build/site.go.  The route
tree reads only its Path field; an id field keeps distinct pages
distinguishable.  Modelled from the spec: package model is not under src/;
a Page is a (route path, Article reference) pair. -/
structure ArticlePage where
  path : String
  id : String
  deriving DecidableEq

/-- Embedding of model.ArticleListPage as touched by src/build/site.go:
registerPage only ever assigns its Path field.  Modelled from the spec:
package model is not under src/; a List Page holds the route's path. -/
structure ArticleListPage where
  path : String
  deriving DecidableEq

/-- Embedding of the Route struct of src/build/site.go: directly registered
pages, the (pointer-valued, hence optional) derived list page, and the map
of child routes keyed by path segment, embedded as an association list. -/
inductive Route where
  | mk (pages : List ArticlePage) (listPage : Option ArticleListPage)
       (children : List (String × Route))

/-- Directly registered pages of a route. -/
def Route.pages : Route → List ArticlePage
  | .mk ps _ _ => ps

/-- Derived list page of a route, if any. -/
def Route.listPage : Route → Option ArticleListPage
  | .mk _ lp _ => lp

/-- Child routes of a route, keyed by path segment. -/
def Route.children : Route → List (String × Route)
  | .mk _ _ cs => cs

/-- Embedding of the root route created by newSite: no pages, no list page
(the ListPage pointer of the root is left nil by newSite), no children. -/
def newSite : Route := .mk [] none []

/-- Embedding of newRoute of src/build/site.go: a fresh route with an empty
page list, an initialized (empty-path) list page and no children. -/
def newRoute : Route := .mk [] (some ⟨""⟩) []

/-- Assignment node.Children[seg].ListPage.Path = p of src/build/site.go. -/
def setListPagePath : Route → String → Route
  | .mk ps lp cs, p => .mk ps (lp.map (fun _ => ⟨p⟩)) cs

/-- Appending a page to a route's Pages slice. -/
def Route.appendPage : Route → ArticlePage → Route
  | .mk ps lp cs, pg => .mk (ps ++ [pg]) lp cs

/-- Go map read node.Children[seg] on the association-list embedding. -/
def lookupChild : List (String × Route) → String → Option Route
  | [], _ => none
  | (k, c) :: rest, key => if k = key then some c else lookupChild rest key

/-- Go map assignment node.Children[seg] = r on the association-list
embedding: replaces the first binding of the key, or appends a new one. -/
def setChild : List (String × Route) → String → Route → List (String × Route)
  | [], key, r => [(key, r)]
  | (k, c) :: rest, key, r =>
    if k = key then (key, r) :: rest else (k, c) :: setChild rest key r

/-- Child route picked by the loop body of registerPage at one segment:
the existing child when the segment is present, and otherwise the fresh
route created by newRoute whose list-page path is set to filepath.Join of
the segments before the current one, exactly as the source does. -/
def insertChild (cs : List (String × Route)) (seg : String) (pre : List String) : Route :=
  match lookupChild cs seg with
  | some c => c
  | none => setListPagePath newRoute (filepathJoin pre)

/-- Loop body of registerPage in src/build/site.go, by recursion over the
remaining segments; pre holds the segments already consumed.  At each
segment the child route is created if missing, the page is appended once
the last segment is reached, and otherwise the walk descends. -/
def insertSegs (page : ArticlePage) : List String → List String → Route → Route
  | _, [], r => r
  | pre, seg :: rest, .mk ps lp cs =>
    match rest with
    | [] => .mk ps lp (setChild cs seg ((insertChild cs seg pre).appendPage page))
    | _ :: _ =>
      .mk ps lp (setChild cs seg (insertSegs page (pre ++ [seg]) rest (insertChild cs seg pre)))

/-- Embedding of (s *Site) registerPage of src/build/site.go.  The site is
represented by its root route.  The page path is split on the slash
(strings.Split) and the segment chain is walked and created as needed. -/
def registerPage (s : Route) (page : ArticlePage) : Route :=
  insertSegs page [] (goSplit page.path '/') s

/-- Descends the child chain along a list of segment keys. -/
def descend : Route → List String → Option Route
  | r, [] => some r
  | r, k :: ks =>
    match lookupChild r.children k with
    | none => none
    | some c => descend c ks

/-- Pages stored at the node reached by a key path; empty when absent. -/
def pagesAt (r : Route) (q : List String) : List ArticlePage :=
  ((descend r q).map Route.pages).getD []

/-- Child keys of the node reached by a key path; empty when absent. -/
def childKeysAt (r : Route) (q : List String) : List String :=
  ((descend r q).map (fun n => n.children.map Prod.fst)).getD []

/-- List-page path stored at the node reached by a key path. -/
def listPagePathAt (r : Route) (q : List String) : Option String :=
  (descend r q).bind (fun n => n.listPage.map ArticleListPage.path)

mutual

/-- Embedding of (s *Site) walkRoute of src/build/site.go.  The Go callback
receives the visited route; the embedding records, for each invocation of
the callback, the key path of the visited route relative to the route the
walk started from (the key path identifies the visited node, which the Go
code addresses by pointer).  The entry guard and the incremented depth are
exactly those of the source; the sibling iteration order of the Go map is
fixed to the association-list order, which the source leaves unspecified. -/
def walkRoute (depth currentDepth : Int) : Route → List (List String)
  | .mk _ _ cs =>
    if depth ≠ -1 ∧ currentDepth = depth then []
    else walkChildren depth (currentDepth + 1) cs

/-- Range over route.Children inside walkRoute: each child is visited and
then walked recursively before the next sibling is processed. -/
def walkChildren (depth currentDepth : Int) : List (String × Route) → List (List String)
  | [] => []
  | (k, c) :: rest =>
    ([k] :: (walkRoute depth currentDepth c).map (fun q => k :: q))
      ++ walkChildren depth currentDepth rest

end

/-- Embedding of (s *Site) WalkRoutes of src/build/site.go: walks the root
route at current depth zero. -/
def WalkRoutes (s : Route) (depth : Int) : List (List String) :=
  walkRoute depth 0 s

mutual

/-- Key paths of every strict descendant of a route, in the sibling order
of the embedding: one entry per tree node below the walk's starting
route. -/
def allPaths : Route → List (List String)
  | .mk _ _ cs => allPathsChildren cs

/-- Sibling iteration of allPaths. -/
def allPathsChildren : List (String × Route) → List (List String)
  | [] => []
  | (k, c) :: rest =>
    ([k] :: (allPaths c).map (fun q => k :: q)) ++ allPathsChildren rest

end

mutual

/-- Well-formedness of the association-list embedding of the Go children
maps: at every node the segment keys are pairwise distinct, as Go map keys
are by construction.  Trees built by registerPage satisfy this. -/
def wfRoute : Route → Bool
  | .mk _ _ cs => decide ((cs.map Prod.fst).Nodup) && wfChildren cs

/-- Sibling iteration of wfRoute. -/
def wfChildren : List (String × Route) → Bool
  | [] => true
  | (_, c) :: rest => wfRoute c && wfChildren rest

end

end V1

namespace V2

mutual

/-- Modelled from the spec: model.Article (package model is not under
src/): content identity (id, title, description, creation date, hide flag,
related-link strings) plus the mutable back-reference list RelatedPages
populated during related-article resolution.  The creation date instant is
embedded as an Int; the back-reference entries are nilable page pointers,
hence Option values. -/
inductive Article where
  | mk (id title description : String) (date : Int) (hide : Bool)
       (related : List String) (relatedPages : List (Option ArticlePage))

/-- Modelled from the spec: model.ArticlePage, a (route path, Article)
binding placed into the tree. -/
inductive ArticlePage where
  | mk (path : String) (article : Article)

end

/-- Identifier of an article. -/
def Article.id : Article → String
  | .mk i _ _ _ _ _ _ => i

/-- Creation date of an article. -/
def Article.date : Article → Int
  | .mk _ _ _ d _ _ _ => d

/-- Hide flag of an article. -/
def Article.hide : Article → Bool
  | .mk _ _ _ _ h _ _ => h

/-- Related-link strings of an article. -/
def Article.related : Article → List String
  | .mk _ _ _ _ _ r _ => r

/-- Back-reference list of an article. -/
def Article.relatedPages : Article → List (Option ArticlePage)
  | .mk _ _ _ _ _ _ rp => rp

/-- Overwrite of article.ID performed by buildPage. -/
def Article.setId : Article → String → Article
  | .mk _ t de d h r rp, i => .mk i t de d h r rp

/-- Route path of an article page. -/
def ArticlePage.path : ArticlePage → String
  | .mk p _ => p

/-- Article of an article page. -/
def ArticlePage.article : ArticlePage → Article
  | .mk _ a => a

/-- Modelled from the spec: model.ListPage as assembled by buildListPages:
the route path and the ArticlePages slice, whose entries are nilable page
pointers. -/
structure ListPage where
  path : String
  articlePages : List (Option ArticlePage)

/-- Modelled from the spec: model.IndexPage: a route's user-supplied index
page (path and article) plus the site-wide ArticlePages aggregate appended
by addArticlePagesToIndexPages. -/
structure IndexPage where
  path : String
  article : Article
  articlePages : List ArticlePage

/-- Modelled from the spec: the per-route record of the newer site model
(the RouteInfo source file is not under src/): the directly registered
pages, the optional derived list page, the optional user index page, and
the child routes keyed by path segment (a Go map, embedded as an
association list). -/
inductive RouteInfo where
  | mk (pages : List ArticlePage) (listPage : Option ListPage)
       (indexPage : Option IndexPage) (children : List (String × RouteInfo))

/-- Directly registered pages of a route. -/
def RouteInfo.pages : RouteInfo → List ArticlePage
  | .mk ps _ _ _ => ps

/-- Derived list page of a route, if any. -/
def RouteInfo.listPage : RouteInfo → Option ListPage
  | .mk _ lp _ _ => lp

/-- User-supplied index page of a route, if any. -/
def RouteInfo.indexPage : RouteInfo → Option IndexPage
  | .mk _ _ ip _ => ip

/-- Child routes of a route. -/
def RouteInfo.children : RouteInfo → List (String × RouteInfo)
  | .mk _ _ _ cs => cs

/-- The empty site: no pages, no derived views, no children. -/
def emptySite : RouteInfo := .mk [] none none []

/-- Appending a page to a route's Pages slice. -/
def RouteInfo.appendPage : RouteInfo → ArticlePage → RouteInfo
  | .mk ps lp ip cs, pg => .mk (ps ++ [pg]) lp ip cs

/-- Setting the index page of a route. -/
def RouteInfo.setIndex : RouteInfo → IndexPage → RouteInfo
  | .mk ps lp _ cs, ip => .mk ps lp (some ip) cs

/-- Map read on the children of the newer model. -/
def lookupChild : List (String × RouteInfo) → String → Option RouteInfo
  | [], _ => none
  | (k, c) :: rest, key => if k = key then some c else lookupChild rest key

/-- Map assignment on the children of the newer model. -/
def setChild : List (String × RouteInfo) → String → RouteInfo → List (String × RouteInfo)
  | [], key, r => [(key, r)]
  | (k, c) :: rest, key, r =>
    if k = key then (key, r) :: rest else (k, c) :: setChild rest key r

/-- Modelled from the spec: the segment walk of insert(page) (section 4.1):
walks/creates the chain of child nodes for each segment in order and
applies the update at the last segment's node. -/
def updateSegs (f : RouteInfo → RouteInfo) : List String → RouteInfo → RouteInfo
  | [], r => r
  | seg :: rest, .mk ps lp ip cs =>
    let child := (lookupChild cs seg).getD emptySite
    match rest with
    | [] => .mk ps lp ip (setChild cs seg (f child))
    | _ :: _ => .mk ps lp ip (setChild cs seg (updateSegs f rest child))

/-- Modelled from the spec: insert(page) of the Route Tree (section 4.1):
given a page whose route path is a slash-separated sequence of segments,
walks/creates the chain of child nodes and appends the page to the last
segment's node; an empty path (root-level content) is appended directly to
the root node without segment traversal. -/
def registerPage (t : RouteInfo) (page : ArticlePage) : RouteInfo :=
  if page.path = "" then t.appendPage page
  else updateSegs (fun n => n.appendPage page) (goSplit page.path '/') t

/-- Modelled from the spec: registerIndex(indexPage) (section 4.2): the
index page is stored at the route named by its path, whose node chain is
walked/created like an ordinary insertion. -/
def registerIndexPage (t : RouteInfo) (ip : IndexPage) : RouteInfo :=
  if ip.path = "" then t.setIndex ip
  else updateSegs (fun n => n.setIndex ip) (goSplit ip.path '/') t

/-- Descends the child chain along a list of segment keys. -/
def descend : RouteInfo → List String → Option RouteInfo
  | r, [] => some r
  | r, k :: ks =>
    match lookupChild r.children k with
    | none => none
    | some c => descend c ks

/-- Pages stored at the node reached by a key path; empty when absent. -/
def pagesAt (r : RouteInfo) (q : List String) : List ArticlePage :=
  ((descend r q).map RouteInfo.pages).getD []

/-- Full route path handed to a walk callback for the child keyed k of the
route with path pre (none for the root). -/
def childPath (pre : Option String) (k : String) : String :=
  match pre with
  | none => k
  | some s => s ++ "/" ++ k

mutual

/-- Modelled from the spec: WalkRoutes of the newer site model, as invoked
by the builder passes with callbacks of type func(r string, i *RouteInfo):
every route reachable from the root is visited exactly once together with
its full path (the root itself is not a route and is not visited).  The
embedding returns the visit log as (path, node) pairs in association-list
order; the Go map iteration order is unspecified. -/
def walkPairs (pre : Option String) : RouteInfo → List (String × RouteInfo)
  | .mk _ _ _ cs => walkPairsList pre cs

/-- Sibling iteration of walkPairs. -/
def walkPairsList (pre : Option String) : List (String × RouteInfo) → List (String × RouteInfo)
  | [] => []
  | (k, c) :: rest =>
    (childPath pre k, c) :: walkPairs (some (childPath pre k)) c ++ walkPairsList pre rest

end

/-- Visit log of the full walk of the newer site model. -/
def WalkRoutes (t : RouteInfo) : List (String × RouteInfo) :=
  walkPairs none t

/-- Embedding of sort.Slice(i.Pages, func(a, b int) bool ...) of
buildListPages, whose less function is Pages[a].Article.Date.After(
Pages[b].Article.Date).  Go guarantees only that the result is a
permutation of the slice ordered with respect to less, with no stability
promise; the embedding runs the stable insertion sort that the Go standard
sort uses at the slice lengths arising in practice, and the theorems rely
only on the ordered-permutation contract. -/
def sortSlice (ps : List ArticlePage) : List ArticlePage :=
  List.insertionSort (fun a b => b.article.date ≤ a.article.date) ps

instance : IsTotal ArticlePage (fun a b => b.article.date ≤ a.article.date) :=
  ⟨fun a b => le_total b.article.date a.article.date⟩

instance : IsTrans ArticlePage (fun a b => b.article.date ≤ a.article.date) :=
  ⟨fun _ _ _ hab hbc => le_trans hbc hab⟩

/-- Callback body of buildListPages (the second build source file, lines
161 to 184), acting on the per-route fields it touches: a route owning an
index page is skipped; otherwise the route's Pages slice is sorted in
place when sorting is enabled, and the list page is created with the route
path and an ArticlePages slice pre-sized to the number of pages, whose
entry n is page n unless that page is hidden, in which case the entry
keeps its zero value nil. -/
def buildListFields (sortPages : Bool) (r : String) (ps : List ArticlePage)
    (lp : Option ListPage) (ip : Option IndexPage) :
    List ArticlePage × Option ListPage × Option IndexPage :=
  match ip with
  | some i => (ps, lp, some i)
  | none =>
    let sorted := if sortPages then sortSlice ps else ps
    (sorted,
     some ⟨r, sorted.map (fun p => if p.article.hide then none else some p)⟩,
     none)

mutual

/-- Walk of buildListPages applied to the route with full path r and its
subtree: the callback body transforms the per-route fields and the walk
proceeds into the children (the callback leaves the children untouched,
and the visit order is immaterial). -/
def buildListSub (sortPages : Bool) (r : String) : RouteInfo → RouteInfo
  | .mk ps lp ip cs =>
    match buildListFields sortPages r ps lp ip with
    | (ps2, lp2, ip2) => .mk ps2 lp2 ip2 (buildListChildren sortPages (some r) cs)

/-- Sibling iteration of the buildListPages walk below a route with path
pre (none for the root). -/
def buildListChildren (sortPages : Bool) (pre : Option String) : List (String × RouteInfo) → List (String × RouteInfo)
  | [] => []
  | (k, c) :: rest =>
    (k, buildListSub sortPages (childPath pre k) c) :: buildListChildren sortPages pre rest

end

/-- Embedding of (b *builder) buildListPages of the second build source
file: the callback body is applied to every route of the tree; the root is
not a route and is left untouched. -/
def buildListPages (sortPages : Bool) (t : RouteInfo) : RouteInfo :=
  match t with
  | .mk ps lp ip cs => .mk ps lp ip (buildListChildren sortPages none cs)

/-- All visible pages collected by the inner walk of
addArticlePagesToIndexPages: for every visited route, its direct pages
whose article is not hidden, in visit order. -/
def allVisiblePages (t : RouteInfo) : List ArticlePage :=
  ((WalkRoutes t).map (fun pr => pr.2.pages.filter (fun p => !p.article.hide))).flatten

/-- Update applied by addArticlePagesToIndexPages to the index page of a
single visited route: every collected page is appended to the aggregate; a
route without an index page is skipped. -/
def idxAppend (ip : Option IndexPage) (l : List ArticlePage) : Option IndexPage :=
  ip.map (fun i => ⟨i.path, i.article, i.articlePages ++ l⟩)

mutual

/-- Application of the index-page update to a node and its whole subtree. -/
def addIdxAll (l : List ArticlePage) : RouteInfo → RouteInfo
  | .mk ps lp ip cs => .mk ps lp (idxAppend ip l) (addIdxAllList l cs)

/-- Sibling iteration of addIdxAll. -/
def addIdxAllList (l : List ArticlePage) : List (String × RouteInfo) → List (String × RouteInfo)
  | [] => []
  | (k, c) :: rest => (k, addIdxAll l c) :: addIdxAllList l rest

end

/-- Embedding of (b *builder) addArticlePagesToIndexPages of the second
build source file: the outer walk visits every route; a route without an
index page is skipped, and a route with one receives, from an inner full
walk, every visible page of every route appended to its aggregate.  The
pass never modifies the Pages slices, so the inner walk collects the same
list at every outer visit; the embedding computes that list once.  The
root is not a route and its own index field is left untouched. -/
def addArticlePagesToIndexPages (t : RouteInfo) : RouteInfo :=
  match t with
  | .mk ps lp ip cs => .mk ps lp ip (addIdxAllList (allVisiblePages t) cs)

/-- Index of the last occurrence of a character in a character list,
mirroring Go strings.LastIndex for a one-character needle (none for the
Go result -1). -/
def lastIdxOf (ch : Char) : List Char → Option Nat
  | [] => none
  | c :: cs =>
    match lastIdxOf ch cs with
    | some i => some (i + 1)
    | none => if c = ch then some 0 else none

/-- Link decomposition of buildRelated: path := link[:strings.LastIndex(
link, slash)] and id := link[len(path)+1:].  When the link contains no
slash, LastIndex yields -1 and the Go slice expression link[:-1] is an
out-of-range run-time fault; the embedding returns none for that fault. -/
def splitLink (link : String) : Option (String × String) :=
  match lastIdxOf '/' link.data with
  | none => none
  | some i => some (⟨link.data.take i⟩, ⟨link.data.drop (i + 1)⟩)

/-- First page of a list whose article carries the wanted identifier. -/
def findPageById : List ArticlePage → String → Option ArticlePage
  | [], _ => none
  | p :: rest, i => if p.article.id = i then some p else findPageById rest i

/-- Modelled from the spec: (s *Site) resolvePath of the newer site model
(not under src/), backing section 4.6: the route path is resolved by
descending the child chain (a missing segment is a not-found condition,
returning the nil page), and within the found route the page whose article
id matches is returned; no match is again a nil page. -/
def resolvePath (t : RouteInfo) (path id : String) : Option ArticlePage :=
  match descend t (goSplit path '/') with
  | none => none
  | some n => findPageById n.pages id

/-- Per-link loop body of buildRelated: the link is split at its last
slash and resolved; the resolved page pointer (nil on a resolution miss)
is what the source appends. -/
def resolveLink (t : RouteInfo) (link : String) : Option (Option ArticlePage) :=
  match splitLink link with
  | none => none
  | some (p, i) => some (resolvePath t p i)

/-- Resolution of all related links of one article, in order: one appended
entry per link; none altogether when some link has no slash (the Go
run-time fault). -/
def resolveLinks (t : RouteInfo) : List String → Option (List (Option ArticlePage))
  | [] => some []
  | link :: rest =>
    match resolveLink t link with
    | none => none
    | some entry =>
      match resolveLinks t rest with
      | none => none
      | some l => some (entry :: l)

/-- Per-page update of buildRelated: the resolved entries are appended to
the article's RelatedPages list.  Resolution reads only the tree structure
and the pages' paths and ids, which the pass never modifies, so resolving
against the pass's input tree is faithful; the appended values are
snapshots of the resolved pages (the Go pointers carry no extra
information the claims depend on). -/
def updPage (t : RouteInfo) (p : ArticlePage) : Option ArticlePage :=
  match resolveLinks t p.article.related with
  | none => none
  | some l =>
    match p.article with
    | .mk i ti de d h r rp => some (.mk p.path (.mk i ti de d h r (rp ++ l)))

/-- Per-page iteration of buildRelated over a route's Pages slice. -/
def updPages (t : RouteInfo) : List ArticlePage → Option (List ArticlePage)
  | [] => some []
  | p :: rest =>
    match updPage t p with
    | none => none
    | some p2 =>
      match updPages t rest with
      | none => none
      | some l => some (p2 :: l)

mutual

/-- Walk of buildRelated applied to one route and its subtree. -/
def buildRelatedSub (t : RouteInfo) : RouteInfo → Option RouteInfo
  | .mk ps lp ip cs =>
    match updPages t ps with
    | none => none
    | some ps2 =>
      match buildRelatedWalk t cs with
      | none => none
      | some cs2 => some (.mk ps2 lp ip cs2)

/-- Sibling iteration of buildRelated. -/
def buildRelatedWalk (t : RouteInfo) : List (String × RouteInfo) → Option (List (String × RouteInfo))
  | [] => some []
  | (k, c) :: rest =>
    match buildRelatedSub t c with
    | none => none
    | some c2 =>
      match buildRelatedWalk t rest with
      | none => none
      | some rest2 => some ((k, c2) :: rest2)

end

/-- Embedding of (b *builder) buildRelated of the second build source
file: for every page of every route, every related link is split at its
last slash, resolved via resolvePath with the error discarded, and the
resulting page pointer appended to the article's RelatedPages; none stands
for the run-time fault raised on a link without a slash.  The root is not
a route and its pages are not processed. -/
def buildRelated (t : RouteInfo) : Option RouteInfo :=
  match t with
  | .mk ps lp ip cs =>
    match buildRelatedWalk t cs with
    | none => none
    | some cs2 => some (.mk ps lp ip cs2)

/-- Modelled from the spec: config.ContentDir (package config is not under
src/), the name of the content directory under the build path whose files
become pages. -/
def ContentDir : String := "content"

/-- Embedding of the registerMode values of the second build source file;
buildPage receives a mode but, as in the source, never reads it. -/
inductive registerMode where
  | NoRegister
  | DirectRegister

/-- Outcome of buildPage: the propagated parser error, a Go run-time
out-of-range fault from string slicing, or success carrying the mutated
site model and the returned page. -/
inductive BuildPageResult where
  | parseFailed
  | outOfRange
  | ok (site : RouteInfo) (page : ArticlePage)

/-- Whether a buildPage outcome is a success. -/
def BuildPageResult.isOk : BuildPageResult → Bool
  | .ok _ _ => true
  | _ => false

/-- Site model of a successful buildPage outcome. -/
def BuildPageResult.site : BuildPageResult → Option RouteInfo
  | .ok s _ => some s
  | _ => none

/-- Embedding of Go filepath.Clean for slash-separated paths without a
volume prefix, element-wise: repeated separators collapse (empty elements
vanish), dot elements vanish, a dotdot element removes the preceding
retained element when one exists, stays literal at the front of a relative
path and vanishes at the root of a rooted one; an empty outcome becomes a
lone dot and only the root keeps its slash.  The element stack is kept in
reverse (head is the most recent element). -/
def cleanPath (p : String) : String :=
  let rooted : Bool :=
    match p.data with
    | c :: _ => c = '/'
    | [] => false
  let comps := (goSplit p '/').filter (fun s => s != "" && s != ".")
  let stack := comps.foldl (fun st c =>
    if c = ".." then
      match st with
      | top :: rest => if top = ".." then c :: top :: rest else rest
      | [] => if rooted then [] else [".."]
    else c :: st) ([] : List String)
  match stack.reverse with
  | [] => if rooted then "/" else "."
  | parts => if rooted then "/" ++ String.intercalate "/" parts
             else String.intercalate "/" parts

/-- Embedding of filepath.ToSlash(filepath.Dir(p)) for slash-separated
paths: Dir keeps everything up to and including the last slash and runs
Clean on it; without any slash the empty prefix cleans to a lone dot.
ToSlash is the identity on the slash-separated paths involved. -/
def dirOf (p : String) : String :=
  match lastIdxOf '/' p.data with
  | none => "."
  | some i => cleanPath ⟨p.data.take (i + 1)⟩

/-- Number of characters buildPage strips from the front of the file
path: the length of BuildPath + slash + ContentDir, shortened to the
length of ContentDir alone in the BuildPath dot edge case when the file
path starts with the content directory (lines 57 to 64 of the build
source). -/
def contentDirLenOf (buildPath file : String) : Nat :=
  if buildPath = "." ∧ (⟨file.data.take ContentDir.data.length⟩ : String) = ContentDir then
    ContentDir.data.length
  else (buildPath ++ "/" ++ ContentDir).data.length

/-- Embedding of filepath.Base for the content-file paths arising here:
the last slash-separated component (after dropping trailing slashes, which
content-file paths do not carry); a lone dot for the empty path. -/
def baseOf (p : String) : String :=
  if p = "" then "."
  else
    match ((goSplit p '/').filter (fun s => s != "")).getLast? with
    | none => "/"
    | some b => b

/-- Embedding of filepath.Ext: the suffix of the path's last component
from its final dot, empty when that component has no dot. -/
def extOf (p : String) : String :=
  let last := ((goSplit p '/').getLast?).getD ""
  match lastIdxOf '.' last.data with
  | none => ""
  | some i => ⟨last.data.drop i⟩

/-- Embedding of strings.TrimSuffix. -/
def trimSuffix (s suffix : String) : String :=
  if s.data.drop (s.data.length - suffix.data.length) = suffix.data then
    ⟨s.data.take (s.data.length - suffix.data.length)⟩
  else s

/-- Embedding of (b *builder) buildPage of the second build source file
(lines 49 to 95).  The parser, an external collaborator, enters as the
already computed Except value; the builder's site model is passed and
returned explicitly (the mutex held by registerPage and registerIndexPage
guards a single registration, which the pure embedding performs directly).
Go byte indices are read as character indices, identical on ASCII paths.
A string slice whose bound exceeds the length is the Go run-time
out-of-range fault. -/
def buildPage (parsed : Except Unit Article) (file : String) (buildPath : String)
    (mode : registerMode) (site : RouteInfo) : BuildPageResult :=
  match parsed with
  | .error _ => .parseFailed
  | .ok article =>
    if buildPath = "." ∧ file.data.length < ContentDir.data.length then .outOfRange
    else
      let contentDirLen := contentDirLenOf buildPath file
      if file.data.length < contentDirLen then .outOfRange
      else
        let relativePath : String := ⟨file.data.drop contentDirLen⟩
        let route := dirOf relativePath
        let id := trimSuffix (baseOf file) (extOf file)
        let article2 := article.setId id
        if id = "index" then
          .ok (registerIndexPage site ⟨route, article2, []⟩) (.mk route article2)
        else
          .ok (registerPage site (.mk route article2)) (.mk route article2)

/-- Full path string of the route reached from the route with path r by
following the given child segments, as assembled by the walk callbacks. -/
def extendPath (r : String) (ks : List String) : String :=
  ks.foldl (fun acc k => acc ++ "/" ++ k) r

/-- Whether one related-link string contains the slash that buildRelated
splits at. -/
def linkHasSlash (link : String) : Bool :=
  (lastIdxOf '/' link.data).isSome

/-- Whether every related link of every page of a list survives the split
of buildRelated. -/
def pagesLinksOk (ps : List ArticlePage) : Bool :=
  ps.all (fun p => p.article.related.all linkHasSlash)

mutual

/-- Whether every related link of every article of a route and its subtree
contains a slash. -/
def nodeLinksOk : RouteInfo → Bool
  | .mk ps _ _ cs => pagesLinksOk ps && childrenLinksOk cs

/-- Sibling iteration of nodeLinksOk. -/
def childrenLinksOk : List (String × RouteInfo) → Bool
  | [] => true
  | (_, c) :: rest => nodeLinksOk c && childrenLinksOk rest

end

/-- Precondition under which buildRelated runs to completion: every
related link of every article the pass visits (the pages of every route;
the root is not a route) contains at least one slash. -/
def relatedLinksOk (t : RouteInfo) : Bool :=
  childrenLinksOk t.children

/-- Example article dated 2023-03-01 (instant 2), visible. -/
def exVisible : ArticlePage := .mk "blog" (.mk "post-a" "" "" 2 false [] [])

/-- Example article dated 2023-01-01 (instant 1), hidden. -/
def exHidden : ArticlePage := .mk "blog" (.mk "post-b" "" "" 1 true [] [])

/-- Shared route holding the hidden and the visible article, the hidden
one registered first. -/
def exListTree : RouteInfo := registerPage (registerPage emptySite exHidden) exVisible

/-- Example article whose single related link names an unregistered
route. -/
def exOrphan : ArticlePage := .mk "blog" (.mk "post-2" "" "" 3 false ["/nope/x"] [])

/-- Site holding only the article with the unresolvable link. -/
def exOrphanTree : RouteInfo := registerPage emptySite exOrphan

/-- The orphan site after buildRelated (which succeeds on it). -/
def exResolvedTree : RouteInfo := (buildRelated exOrphanTree).getD emptySite

/-- The blog node of the orphan site. -/
def exOrphanNode : RouteInfo := (descend exOrphanTree ["blog"]).getD emptySite

/-- Example article whose related link has no slash. -/
def exNoSlash : ArticlePage := .mk "blog" (.mk "post-3" "" "" 3 false ["noslash"] [])

/-- Older visible article (instant 1). -/
def exOld : ArticlePage := .mk "blog" (.mk "old" "" "" 1 false [] [])

/-- Newer visible article (instant 2). -/
def exNew : ArticlePage := .mk "blog" (.mk "new" "" "" 2 false [] [])

/-- Route holding the two visible articles, older registered first. -/
def exSortTree : RouteInfo := registerPage (registerPage emptySite exOld) exNew

/-- The blog node of exSortTree. -/
def exSortNode : RouteInfo := (descend exSortTree ["blog"]).getD emptySite

/-- Index page for route a. -/
def exIdxA : IndexPage := ⟨"a", .mk "idx-a" "" "" 0 false [] [], []⟩

/-- Index page for route b. -/
def exIdxB : IndexPage := ⟨"b", .mk "idx-b" "" "" 0 false [] [], []⟩

/-- Site with two index-eligible routes a and b and three articles under
other routes, one of them hidden. -/
def exIdxTree : RouteInfo :=
  registerPage (registerPage (registerPage
    (registerIndexPage (registerIndexPage emptySite exIdxA) exIdxB)
    (.mk "x" (.mk "a1" "" "" 1 false [] [])))
    (.mk "y" (.mk "a2" "" "" 2 false [] [])))
    (.mk "y" (.mk "a3" "" "" 3 true [] []))

/-- The node of route a in exIdxTree. -/
def exIdxNodeA : RouteInfo := (descend exIdxTree ["a"]).getD emptySite

/-- The node of route b in exIdxTree. -/
def exIdxNodeB : RouteInfo := (descend exIdxTree ["b"]).getD emptySite

/-- Example article for buildPage runs. -/
def exArticle : Article := .mk "" "" "" 5 false [] []

end V2

namespace V1

theorem lookupChild_setChild_self (cs : List (String × Route)) (k : String) (v : Route) :
    lookupChild (setChild cs k v) k = some v := by
  induction cs with
  | nil => simp [setChild, lookupChild]
  | cons hd tl ih =>
    obtain ⟨k0, c0⟩ := hd
    by_cases h : k0 = k
    · simp [setChild, h, lookupChild]
    · simp [setChild, h, lookupChild, ih]

theorem lookupChild_setChild_ne (cs : List (String × Route)) (k k2 : String) (v : Route)
    (h : k2 ≠ k) : lookupChild (setChild cs k v) k2 = lookupChild cs k2 := by
  induction cs with
  | nil => simp [setChild, lookupChild, Ne.symm h]
  | cons hd tl ih =>
    obtain ⟨k0, c0⟩ := hd
    by_cases hk : k0 = k
    · subst hk
      simp [setChild, lookupChild, Ne.symm h]
    · simp [setChild, hk, lookupChild, ih]

theorem pages_insertSegs (page : ArticlePage) (rest pre : List String) (r : Route) :
    (insertSegs page pre rest r).pages = r.pages := by
  cases r with
  | mk ps lp cs =>
    cases rest with
    | nil => rfl
    | cons seg rest2 => cases rest2 <;> simp [insertSegs, Route.pages]

theorem pagesAt_nil (r : Route) : pagesAt r [] = r.pages := by
  simp [pagesAt, descend]

theorem pagesAt_mk_cons (ps : List ArticlePage) (lp : Option ArticleListPage)
    (cs : List (String × Route)) (k : String) (q : List String) :
    pagesAt (.mk ps lp cs) (k :: q) =
      (match lookupChild cs k with
       | none => []
       | some c => pagesAt c q) := by
  cases h : lookupChild cs k <;> simp [pagesAt, descend, Route.children, h]

theorem pagesAt_appendPage (c : Route) (p : ArticlePage) (q : List String) :
    pagesAt (Route.appendPage c p) q = if q = [] then c.pages ++ [p] else pagesAt c q := by
  cases c with
  | mk ps lp cs =>
    cases q with
    | nil => simp [Route.appendPage, pagesAt_nil, Route.pages]
    | cons k q2 => simp [Route.appendPage, pagesAt_mk_cons]

theorem pagesAt_newRoute (p0 : String) (q : List String) :
    pagesAt (setListPagePath newRoute p0) q = [] := by
  cases q <;> simp [setListPagePath, newRoute, pagesAt_nil, pagesAt_mk_cons, Route.pages, lookupChild]

theorem splitChars_ne_nil (sep : Char) (l : List Char) : splitChars sep l ≠ [] := by
  cases l with
  | nil => simp [splitChars]
  | cons c cs =>
    simp only [splitChars]
    split
    · simp
    · split <;> simp

theorem goSplit_ne_nil (s : String) : goSplit s '/' ≠ [] := by
  intro h
  exact splitChars_ne_nil '/' s.data (List.map_eq_nil_iff.mp h)

theorem pagesAt_insertChild (cs : List (String × Route)) (seg : String)
    (pre : List String) (ps : List ArticlePage) (lp : Option ArticleListPage)
    (q : List String) :
    pagesAt (insertChild cs seg pre) q = pagesAt (Route.mk ps lp cs) (seg :: q) := by
  cases hc : lookupChild cs seg with
  | some c => simp [insertChild, hc, pagesAt_mk_cons]
  | none => simp [insertChild, hc, pagesAt_mk_cons, pagesAt_newRoute]

theorem pagesAt_insertSegs (page : ArticlePage) (rest : List String) :
    ∀ (pre : List String) (r : Route) (q : List String),
      pagesAt (insertSegs page pre rest r) q =
        if q = rest ∧ rest ≠ [] then pagesAt r q ++ [page] else pagesAt r q := by
  induction rest with
  | nil =>
    intro pre r q
    simp [insertSegs]
  | cons seg rest ih =>
    intro pre r q
    cases r with
    | mk ps lp cs =>
      cases rest with
      | nil =>
        cases q with
        | nil => simp [insertSegs, pagesAt_nil, Route.pages]
        | cons k q2 =>
          by_cases hk : k = seg
          · subst hk
            rw [show insertSegs page pre [k] (Route.mk ps lp cs) =
                  Route.mk ps lp (setChild cs k ((insertChild cs k pre).appendPage page))
                from rfl]
            rw [pagesAt_mk_cons]
            rw [lookupChild_setChild_self]
            show pagesAt ((insertChild cs k pre).appendPage page) q2 = _
            rw [pagesAt_appendPage]
            cases q2 with
            | nil =>
              rw [← pagesAt_nil (insertChild cs k pre), pagesAt_insertChild cs k pre ps lp]
              simp
            | cons k2 q3 =>
              rw [pagesAt_insertChild cs k pre ps lp]
              simp
          · rw [show insertSegs page pre [seg] (Route.mk ps lp cs) =
                  Route.mk ps lp (setChild cs seg ((insertChild cs seg pre).appendPage page))
                from rfl]
            rw [pagesAt_mk_cons, lookupChild_setChild_ne _ _ _ _ hk, ← pagesAt_mk_cons ps lp]
            have hne : ¬(k :: q2 = [seg] ∧ ([seg] : List String) ≠ []) := by
              intro hcontra
              exact hk (List.cons_eq_cons.mp hcontra.1).1
            rw [if_neg hne]
      | cons seg2 rest2 =>
        cases q with
        | nil =>
          have hne : ¬(([] : List String) = seg :: seg2 :: rest2 ∧
              (seg :: seg2 :: rest2 : List String) ≠ []) := by
            intro hcontra
            exact List.noConfusion hcontra.1
          rw [if_neg hne]
          rw [show insertSegs page pre (seg :: seg2 :: rest2) (Route.mk ps lp cs) =
                Route.mk ps lp (setChild cs seg
                  (insertSegs page (pre ++ [seg]) (seg2 :: rest2) (insertChild cs seg pre)))
              from rfl]
          rw [pagesAt_nil, pagesAt_nil]
          rfl
        | cons k q2 =>
          by_cases hk : k = seg
          · subst hk
            rw [show insertSegs page pre (k :: seg2 :: rest2) (Route.mk ps lp cs) =
                  Route.mk ps lp (setChild cs k
                    (insertSegs page (pre ++ [k]) (seg2 :: rest2) (insertChild cs k pre)))
                from rfl]
            rw [pagesAt_mk_cons, lookupChild_setChild_self]
            show pagesAt (insertSegs page (pre ++ [k]) (seg2 :: rest2) (insertChild cs k pre)) q2 = _
            rw [ih (pre ++ [k]) (insertChild cs k pre) q2]
            rw [pagesAt_insertChild cs k pre ps lp]
            by_cases hq : q2 = seg2 :: rest2
            · simp [hq]
            · have hne : ¬(k :: q2 = k :: seg2 :: rest2 ∧
                  (k :: seg2 :: rest2 : List String) ≠ []) := by
                intro hcontra
                exact hq (List.cons_eq_cons.mp hcontra.1).2
              simp [hq, hne]
          · rw [show insertSegs page pre (seg :: seg2 :: rest2) (Route.mk ps lp cs) =
                  Route.mk ps lp (setChild cs seg
                    (insertSegs page (pre ++ [seg]) (seg2 :: rest2) (insertChild cs seg pre)))
                from rfl]
            rw [pagesAt_mk_cons, lookupChild_setChild_ne _ _ _ _ hk, ← pagesAt_mk_cons ps lp]
            have hne : ¬(k :: q2 = seg :: seg2 :: rest2 ∧
                (seg :: seg2 :: rest2 : List String) ≠ []) := by
              intro hcontra
              exact hk (List.cons_eq_cons.mp hcontra.1).1
            rw [if_neg hne]

theorem pagesAt_registerPage (s : Route) (page : ArticlePage) (q : List String) :
    pagesAt (registerPage s page) q =
      if q = goSplit page.path '/' then pagesAt s q ++ [page] else pagesAt s q := by
  rw [registerPage, pagesAt_insertSegs]
  simp [goSplit_ne_nil]

theorem lookupChild_none_iff (cs : List (String × Route)) (k : String) :
    lookupChild cs k = none ↔ k ∉ cs.map Prod.fst := by
  induction cs with
  | nil => simp [lookupChild]
  | cons hd tl ih =>
    obtain ⟨k0, c0⟩ := hd
    by_cases h : k0 = k
    · subst h
      simp [lookupChild]
    · simp [lookupChild, h, ih, Ne.symm h]

theorem keys_setChild (cs : List (String × Route)) (k : String) (v : Route) :
    (setChild cs k v).map Prod.fst =
      if (lookupChild cs k).isSome then cs.map Prod.fst else cs.map Prod.fst ++ [k] := by
  induction cs with
  | nil => simp [setChild, lookupChild]
  | cons hd tl ih =>
    obtain ⟨k0, c0⟩ := hd
    by_cases h : k0 = k
    · subst h
      simp [setChild, lookupChild]
    · simp only [setChild, if_neg h, lookupChild, List.map_cons, ih]
      by_cases hs : (lookupChild tl k).isSome <;> simp [h, hs]

theorem descend_mk_cons (ps : List ArticlePage) (lp : Option ArticleListPage)
    (cs : List (String × Route)) (k : String) (q : List String) :
    descend (.mk ps lp cs) (k :: q) =
      (match lookupChild cs k with
       | none => none
       | some c => descend c q) := by
  cases h : lookupChild cs k <;> simp [descend, Route.children, h]

theorem descend_insertSegs_take (page : ArticlePage) (rest : List String) :
    ∀ (pre : List String) (r : Route) (n : Nat), rest ≠ [] →
      (descend (insertSegs page pre rest r) (rest.take n)).isSome = true := by
  induction rest with
  | nil =>
    intro _ _ _ h
    exact absurd rfl h
  | cons seg rest ih =>
    intro pre r n _
    cases r with
    | mk ps lp cs =>
      cases n with
      | zero => simp [descend]
      | succ n =>
        cases rest with
        | nil =>
          rw [show insertSegs page pre [seg] (Route.mk ps lp cs) =
                Route.mk ps lp (setChild cs seg ((insertChild cs seg pre).appendPage page))
              from rfl]
          simp [descend_mk_cons, lookupChild_setChild_self, descend, Route.children,
            lookupChild_setChild_self]
        | cons seg2 rest2 =>
          rw [show insertSegs page pre (seg :: seg2 :: rest2) (Route.mk ps lp cs) =
                Route.mk ps lp (setChild cs seg
                  (insertSegs page (pre ++ [seg]) (seg2 :: rest2) (insertChild cs seg pre)))
              from rfl]
          rw [show (seg :: seg2 :: rest2).take (n + 1) = seg :: (seg2 :: rest2).take n from rfl]
          rw [descend_mk_cons, lookupChild_setChild_self]
          exact ih (pre ++ [seg]) (insertChild cs seg pre) n (by simp)

theorem childKeysAt_nil (r : Route) : childKeysAt r [] = r.children.map Prod.fst := by
  simp [childKeysAt, descend]

theorem childKeysAt_mk_cons (ps : List ArticlePage) (lp : Option ArticleListPage)
    (cs : List (String × Route)) (k : String) (q : List String) :
    childKeysAt (.mk ps lp cs) (k :: q) =
      (match lookupChild cs k with
       | none => []
       | some c => childKeysAt c q) := by
  cases h : lookupChild cs k <;> simp [childKeysAt, descend, Route.children, h]

theorem childKeysAt_appendPage (c : Route) (p : ArticlePage) (q : List String) :
    childKeysAt (Route.appendPage c p) q = childKeysAt c q := by
  cases c with
  | mk ps lp cs =>
    cases q with
    | nil => simp [Route.appendPage, childKeysAt_nil, Route.children]
    | cons k q2 => simp [Route.appendPage, childKeysAt_mk_cons]

theorem childKeysAt_insertSegs_of_exists (page : ArticlePage) (rest : List String) :
    ∀ (pre : List String) (r : Route), (descend r rest).isSome = true →
      ∀ q, childKeysAt (insertSegs page pre rest r) q = childKeysAt r q := by
  induction rest with
  | nil =>
    intro pre r _ q
    simp [insertSegs]
  | cons seg rest ih =>
    intro pre r hex q
    cases r with
    | mk ps lp cs =>
      have hstep : ∃ c, lookupChild cs seg = some c ∧ (descend c rest).isSome = true := by
        cases hcc : lookupChild cs seg with
        | none =>
          rw [descend_mk_cons, hcc] at hex
          exact absurd hex (by simp)
        | some c =>
          refine ⟨c, rfl, ?_⟩
          rw [descend_mk_cons, hcc] at hex
          exact hex
      obtain ⟨c, hcc, hdc⟩ := hstep
      have hic : insertChild cs seg pre = c := by simp [insertChild, hcc]
      have hkeys : ∀ v, (setChild cs seg v).map Prod.fst = cs.map Prod.fst := by
        intro v
        rw [keys_setChild, hcc]
        simp
      cases rest with
      | nil =>
        rw [show insertSegs page pre [seg] (Route.mk ps lp cs) =
              Route.mk ps lp (setChild cs seg ((insertChild cs seg pre).appendPage page))
            from rfl]
        cases q with
        | nil => simp [childKeysAt_nil, Route.children, hkeys]
        | cons k q2 =>
          by_cases hk : k = seg
          · subst hk
            rw [childKeysAt_mk_cons, lookupChild_setChild_self]
            show childKeysAt ((insertChild cs k pre).appendPage page) q2 = _
            rw [hic, childKeysAt_appendPage, childKeysAt_mk_cons, hcc]
          · rw [childKeysAt_mk_cons, lookupChild_setChild_ne _ _ _ _ hk, ← childKeysAt_mk_cons ps lp]
      | cons seg2 rest2 =>
        rw [show insertSegs page pre (seg :: seg2 :: rest2) (Route.mk ps lp cs) =
              Route.mk ps lp (setChild cs seg
                (insertSegs page (pre ++ [seg]) (seg2 :: rest2) (insertChild cs seg pre)))
            from rfl]
        cases q with
        | nil => simp [childKeysAt_nil, Route.children, hkeys]
        | cons k q2 =>
          by_cases hk : k = seg
          · subst hk
            rw [childKeysAt_mk_cons, lookupChild_setChild_self]
            show childKeysAt (insertSegs page (pre ++ [k]) (seg2 :: rest2) (insertChild cs k pre)) q2 = _
            rw [hic, ih (pre ++ [k]) c hdc q2, childKeysAt_mk_cons, hcc]
          · rw [childKeysAt_mk_cons, lookupChild_setChild_ne _ _ _ _ hk, ← childKeysAt_mk_cons ps lp]

theorem descend_registerPage_take (s : Route) (page : ArticlePage) (n : Nat) :
    (descend (registerPage s page) ((goSplit page.path '/').take n)).isSome = true := by
  rw [registerPage]
  exact descend_insertSegs_take page (goSplit page.path '/') [] s n (goSplit_ne_nil _)

theorem childKeysAt_registerPage_again (s : Route) (page : ArticlePage) (i2 : String)
    (q : List String) :
    childKeysAt (registerPage (registerPage s page) ⟨page.path, i2⟩) q =
      childKeysAt (registerPage s page) q := by
  have hex : (descend (registerPage s page) (goSplit page.path '/')).isSome = true := by
    have h := descend_registerPage_take s page (goSplit page.path '/').length
    rwa [List.take_length] at h
  rw [show registerPage (registerPage s page) ⟨page.path, i2⟩ =
        insertSegs ⟨page.path, i2⟩ [] (goSplit page.path '/') (registerPage s page) from rfl]
  exact childKeysAt_insertSegs_of_exists _ _ _ _ hex q

end V1

section ClaimsV1A

open V1

/-- C4 counterexample: registering the page with the empty route path on a
fresh site does not append it to the root's page list.  Go strings.Split
turns the empty path into the single empty segment, so registerPage
creates a child route keyed by the empty string and appends the page
there: the root's page list stays empty, the root gains the child keyed by
the empty segment, and the page sits in that child's page list. -/
theorem c4_counterexample :
    (registerPage newSite ⟨"", "home"⟩).pages ≠ [(⟨"", "home"⟩ : ArticlePage)] ∧
    (registerPage newSite ⟨"", "home"⟩).pages = [] ∧
    childKeysAt (registerPage newSite ⟨"", "home"⟩) [] = [""] ∧
    pagesAt (registerPage newSite ⟨"", "home"⟩) [""] = [⟨"", "home"⟩] := by
  refine ⟨?_, ?_, ?_, ?_⟩ <;> decide

/-- C4 amended: registering a page whose route path is the empty string
leaves the root's own page list unchanged and appends the page to the
child route keyed by the empty segment (strings.Split of the empty path
yields that one segment), creating that child if missing; pages at every
other key path are untouched. -/
theorem c4_amended (s : Route) (i : String) :
    (registerPage s ⟨"", i⟩).pages = s.pages ∧
    ∀ q, pagesAt (registerPage s ⟨"", i⟩) q =
      if q = [""] then pagesAt s q ++ [(⟨"", i⟩ : ArticlePage)] else pagesAt s q := by
  constructor
  · rw [registerPage]
    exact pages_insertSegs _ _ _ _
  · intro q
    have hsplit : goSplit (ArticlePage.path ⟨"", i⟩) '/' = [""] := rfl
    rw [pagesAt_registerPage, hsplit]

/-- C9: the list-page path that registerPage stores at a newly created
route is filepath.Join of the segments strictly before the creating
segment, not the route's full path: after inserting a page at
blog/coffee on a fresh site, the node blog stores the empty path and the
node coffee stores blog, while the full paths are blog and blog/coffee. -/
theorem c9_evidence :
    listPagePathAt (registerPage newSite ⟨"blog/coffee", "c1"⟩) ["blog", "coffee"] = some "blog" ∧
    listPagePathAt (registerPage newSite ⟨"blog/coffee", "c1"⟩) ["blog"] = some "" ∧
    filepathJoin ["blog", "coffee"] = "blog/coffee" ∧
    filepathJoin ["blog"] = "blog" ∧
    some ("blog" : String) ≠ some "blog/coffee" ∧
    some ("" : String) ≠ some "blog" := by
  refine ⟨?_, ?_, ?_, ?_, ?_, ?_⟩ <;> decide

/-- C5: inserting a page whose route path splits into a chain of segments
appends the page to the node at the end of that chain and to no other key
path; every prefix of the chain exists afterwards (the chain is created as
needed); inserting a second page under the same path creates no further
child anywhere (the existing chain is reused); and concretely, inserting a
page at blog/coffee in a fresh site yields nested routes blog then coffee
with the page only in coffee's page list. -/
theorem c5_insert (s : Route) (page : ArticlePage) :
    (∀ q, pagesAt (registerPage s page) q =
        if q = goSplit page.path '/' then pagesAt s q ++ [page] else pagesAt s q) ∧
    (∀ n, (descend (registerPage s page) ((goSplit page.path '/').take n)).isSome = true) ∧
    (∀ i2 q, childKeysAt (registerPage (registerPage s page) ⟨page.path, i2⟩) q =
        childKeysAt (registerPage s page) q) ∧
    pagesAt (registerPage newSite ⟨"blog/coffee", "c1"⟩) ["blog", "coffee"]
      = [⟨"blog/coffee", "c1"⟩] ∧
    pagesAt (registerPage newSite ⟨"blog/coffee", "c1"⟩) ["blog"] = [] ∧
    (registerPage newSite ⟨"blog/coffee", "c1"⟩).pages = [] ∧
    childKeysAt (registerPage newSite ⟨"blog/coffee", "c1"⟩) [] = ["blog"] ∧
    childKeysAt (registerPage newSite ⟨"blog/coffee", "c1"⟩) ["blog"] = ["coffee"] := by
  refine ⟨fun q => pagesAt_registerPage s page q,
          fun n => descend_registerPage_take s page n,
          fun i2 q => childKeysAt_registerPage_again s page i2 q,
          ?_, ?_, ?_, ?_, ?_⟩ <;> decide

end ClaimsV1A

namespace V1

mutual

theorem indR (m1 : Route → Prop) (m2 : List (String × Route) → Prop)
    (h1 : ∀ ps lp cs, m2 cs → m1 (.mk ps lp cs))
    (hnil : m2 [])
    (hcons : ∀ k c rest, m1 c → m2 rest → m2 ((k, c) :: rest)) :
    ∀ r, m1 r
  | .mk ps lp cs => h1 ps lp cs (indL m1 m2 h1 hnil hcons cs)

theorem indL (m1 : Route → Prop) (m2 : List (String × Route) → Prop)
    (h1 : ∀ ps lp cs, m2 cs → m1 (.mk ps lp cs))
    (hnil : m2 [])
    (hcons : ∀ k c rest, m1 c → m2 rest → m2 ((k, c) :: rest)) :
    ∀ cs, m2 cs
  | [] => hnil
  | (k, c) :: rest =>
    hcons k c rest (indR m1 m2 h1 hnil hcons c) (indL m1 m2 h1 hnil hcons rest)

end

theorem walkRoute_mk (d cur : Int) (ps : List ArticlePage) (lp : Option ArticleListPage)
    (cs : List (String × Route)) :
    walkRoute d cur (.mk ps lp cs) =
      if d ≠ -1 ∧ cur = d then [] else walkChildren d (cur + 1) cs := rfl

theorem walkChildren_nil (d cur : Int) : walkChildren d cur [] = [] := rfl

theorem walkChildren_cons (d cur : Int) (k : String) (c : Route)
    (rest : List (String × Route)) :
    walkChildren d cur ((k, c) :: rest) =
      ([k] :: (walkRoute d cur c).map (fun q => k :: q)) ++ walkChildren d cur rest := rfl

theorem allPaths_mk (ps : List ArticlePage) (lp : Option ArticleListPage)
    (cs : List (String × Route)) :
    allPaths (.mk ps lp cs) = allPathsChildren cs := rfl

theorem allPathsChildren_cons (k : String) (c : Route) (rest : List (String × Route)) :
    allPathsChildren ((k, c) :: rest) =
      ([k] :: (allPaths c).map (fun q => k :: q)) ++ allPathsChildren rest := rfl

theorem walkRoute_neg (d : Int) (hd : d < 0) :
    (∀ r : Route, ∀ cur : Int, 0 ≤ cur → walkRoute d cur r = allPaths r) ∧
    (∀ cs : List (String × Route), ∀ cur : Int, 0 ≤ cur →
      walkChildren d cur cs = allPathsChildren cs) := by
  constructor
  · refine indR (fun r => ∀ cur : Int, 0 ≤ cur → walkRoute d cur r = allPaths r)
      (fun cs => ∀ cur : Int, 0 ≤ cur → walkChildren d cur cs = allPathsChildren cs)
      ?_ ?_ ?_
    · intro ps lp cs ih cur hcur
      rw [walkRoute_mk, allPaths_mk, if_neg (by omega), ih (cur + 1) (by omega)]
    · intro _ _
      rfl
    · intro k c rest ih1 ih2 cur hcur
      rw [walkChildren_cons, allPathsChildren_cons, ih1 cur hcur, ih2 cur hcur]
  · refine indL (fun r => ∀ cur : Int, 0 ≤ cur → walkRoute d cur r = allPaths r)
      (fun cs => ∀ cur : Int, 0 ≤ cur → walkChildren d cur cs = allPathsChildren cs)
      ?_ ?_ ?_
    · intro ps lp cs ih cur hcur
      rw [walkRoute_mk, allPaths_mk, if_neg (by omega), ih (cur + 1) (by omega)]
    · intro _ _
      rfl
    · intro k c rest ih1 ih2 cur hcur
      rw [walkChildren_cons, allPathsChildren_cons, ih1 cur hcur, ih2 cur hcur]

theorem indBoth (m1 : Route → Prop) (m2 : List (String × Route) → Prop)
    (h1 : ∀ ps lp cs, m2 cs → m1 (.mk ps lp cs))
    (hnil : m2 [])
    (hcons : ∀ k c rest, m1 c → m2 rest → m2 ((k, c) :: rest)) :
    (∀ r, m1 r) ∧ ∀ cs, m2 cs :=
  ⟨indR m1 m2 h1 hnil hcons, indL m1 m2 h1 hnil hcons⟩

theorem allPaths_ne_nil :
    (∀ r : Route, ∀ q ∈ allPaths r, q ≠ []) ∧
    (∀ cs : List (String × Route), ∀ q ∈ allPathsChildren cs, q ≠ []) := by
  refine indBoth _ _ ?_ ?_ ?_
  · intro ps lp cs ih q hq
    rw [allPaths_mk] at hq
    exact ih q hq
  · intro q hq
    simp [allPathsChildren] at hq
  · intro k c rest _ ih2 q hq
    rw [allPathsChildren_cons] at hq
    rcases List.mem_append.mp hq with hq | hq
    · rcases List.mem_cons.mp hq with hq | hq
      · subst hq
        simp
      · obtain ⟨q2, _, rfl⟩ := List.mem_map.mp hq
        simp
    · exact ih2 q hq

theorem walkRoute_bounded (d : Int) (hd : 0 ≤ d) :
    (∀ r : Route, ∀ cur : Int, 0 ≤ cur → cur ≤ d →
      walkRoute d cur r =
        (allPaths r).filter (fun q => decide (cur + (q.length : Int) ≤ d))) ∧
    (∀ cs : List (String × Route), ∀ cur : Int, 1 ≤ cur → cur ≤ d →
      walkChildren d cur cs =
        (allPathsChildren cs).filter (fun q => decide (cur - 1 + (q.length : Int) ≤ d))) := by
  refine indBoth _ _ ?_ ?_ ?_
  · intro ps lp cs ih cur hcur hcurd
    rw [walkRoute_mk, allPaths_mk]
    by_cases hstop : cur = d
    · rw [if_pos (by omega)]
      symm
      rw [List.filter_eq_nil_iff]
      intro q hq
      have h1 : q ≠ [] := allPaths_ne_nil.2 cs q hq
      have h2 : 1 ≤ (q.length : Int) := by
        cases q with
        | nil => exact absurd rfl h1
        | cons a l => simp
      simp only [decide_eq_true_eq]
      omega
    · rw [if_neg (by omega), ih (cur + 1) (by omega) (by omega)]
      apply List.filter_congr
      intro q _
      rw [decide_eq_decide]
      omega
  · intro cur _ _
    rfl
  · intro k c rest ih1 ih2 cur hcur hcurd
    rw [walkChildren_cons, allPathsChildren_cons, List.filter_append]
    rw [ih2 cur hcur hcurd]
    rw [ih1 cur (by omega) hcurd]
    congr 1
    rw [List.filter_cons]
    have hk : (decide (cur - 1 + (([k] : List String).length : Int) ≤ d)) = true := by
      simp only [decide_eq_true_eq, List.length_cons, List.length_nil]
      push_cast
      omega
    rw [hk]
    simp only [if_true]
    congr 1
    rw [List.filter_map]
    congr 1
    apply List.filter_congr
    intro q _
    simp only [Function.comp_apply, List.length_cons]
    rw [decide_eq_decide]
    push_cast
    omega

theorem head_mem_of_mem_allPathsChildren (cs : List (String × Route)) :
    ∀ q ∈ allPathsChildren cs, ∃ k q2, q = k :: q2 ∧ k ∈ cs.map Prod.fst := by
  induction cs with
  | nil =>
    intro q hq
    simp [allPathsChildren] at hq
  | cons hd rest ih =>
    obtain ⟨k0, c0⟩ := hd
    intro q hq
    rw [allPathsChildren_cons] at hq
    rcases List.mem_append.mp hq with hq | hq
    · rcases List.mem_cons.mp hq with hq | hq
      · exact ⟨k0, [], hq, by simp⟩
      · obtain ⟨q2, _, rfl⟩ := List.mem_map.mp hq
        exact ⟨k0, q2, rfl, by simp⟩
    · obtain ⟨k, q2, rfl, hk⟩ := ih q hq
      exact ⟨k, q2, rfl, by simp [hk]⟩

theorem wfRoute_mk (ps : List ArticlePage) (lp : Option ArticleListPage)
    (cs : List (String × Route)) :
    wfRoute (.mk ps lp cs) = (decide ((cs.map Prod.fst).Nodup) && wfChildren cs) := rfl

theorem wfRoute_mk_iff (ps : List ArticlePage) (lp : Option ArticleListPage)
    (cs : List (String × Route)) :
    wfRoute (.mk ps lp cs) = true ↔ (cs.map Prod.fst).Nodup ∧ wfChildren cs = true := by
  rw [wfRoute_mk, Bool.and_eq_true, decide_eq_true_eq]

theorem wfChildren_cons_iff (k : String) (c : Route) (rest : List (String × Route)) :
    wfChildren ((k, c) :: rest) = true ↔ wfRoute c = true ∧ wfChildren rest = true := by
  show (wfRoute c && wfChildren rest) = true ↔ _
  rw [Bool.and_eq_true]

theorem lookupChild_cons_self (k : String) (c : Route) (rest : List (String × Route)) :
    lookupChild ((k, c) :: rest) k = some c := by
  simp [lookupChild]

theorem mem_allPaths_iff :
    (∀ r : Route, wfRoute r = true →
      ∀ q, q ∈ allPaths r ↔ q ≠ [] ∧ (descend r q).isSome = true) ∧
    (∀ cs : List (String × Route), wfChildren cs = true → (cs.map Prod.fst).Nodup →
      ∀ q, q ∈ allPathsChildren cs ↔
        ∃ k q2 c, q = k :: q2 ∧ lookupChild cs k = some c ∧ (descend c q2).isSome = true) := by
  refine indBoth _ _ ?_ ?_ ?_
  · intro ps lp cs ih hwf q
    obtain ⟨hnd, hwfc⟩ := (wfRoute_mk_iff ps lp cs).mp hwf
    rw [allPaths_mk, ih hwfc hnd q]
    cases q with
    | nil =>
      simp
    | cons k q2 =>
      rw [descend_mk_cons]
      constructor
      · rintro ⟨k2, q3, c, heq, hlook, hdesc⟩
        obtain ⟨rfl, rfl⟩ := List.cons_eq_cons.mp heq
        refine ⟨by simp, ?_⟩
        rw [hlook]
        exact hdesc
      · rintro ⟨-, hdesc⟩
        cases hlook : lookupChild cs k with
        | none =>
          rw [hlook] at hdesc
          simp at hdesc
        | some c =>
          rw [hlook] at hdesc
          exact ⟨k, q2, c, rfl, hlook, hdesc⟩
  · intro _ _ q
    constructor
    · intro hq
      simp [allPathsChildren] at hq
    · rintro ⟨k, q2, c, rfl, hlook, -⟩
      simp [lookupChild] at hlook
  · intro k0 c0 rest ih1 ih2 hwf hnd q
    obtain ⟨hwfc0, hwfrest⟩ := (wfChildren_cons_iff k0 c0 rest).mp hwf
    have hnd2 : (k0 :: rest.map Prod.fst).Nodup := by
      rw [List.map_cons] at hnd
      exact hnd
    have hk0 : k0 ∉ rest.map Prod.fst := (List.nodup_cons.mp hnd2).1
    have hndrest : (rest.map Prod.fst).Nodup := (List.nodup_cons.mp hnd2).2
    rw [allPathsChildren_cons]
    constructor
    · intro hq
      rcases List.mem_append.mp hq with hq | hq
      · rcases List.mem_cons.mp hq with hq | hq
        · exact ⟨k0, [], c0, hq, lookupChild_cons_self k0 c0 rest, by simp [descend]⟩
        · obtain ⟨q2, hq2, rfl⟩ := List.mem_map.mp hq
          have := (ih1 hwfc0 q2).mp hq2
          exact ⟨k0, q2, c0, rfl, lookupChild_cons_self k0 c0 rest, this.2⟩
      · obtain ⟨k, q2, c, rfl, hlook, hdesc⟩ := (ih2 hwfrest hndrest q).mp hq
        have hkne : k0 ≠ k := by
          intro hcontra
          subst hcontra
          apply hk0
          by_contra hnotmem
          rw [(lookupChild_none_iff rest k0).mpr hnotmem] at hlook
          exact Option.noConfusion hlook
        refine ⟨k, q2, c, rfl, ?_, hdesc⟩
        simp [lookupChild, hkne]
        exact hlook
    · rintro ⟨k, q2, c, rfl, hlook, hdesc⟩
      by_cases hk : k0 = k
      · subst hk
        rw [lookupChild_cons_self] at hlook
        injection hlook with hlook
        subst hlook
        cases q2 with
        | nil => exact List.mem_append.mpr (Or.inl (List.mem_cons_self _ _))
        | cons a q3 =>
          refine List.mem_append.mpr (Or.inl (List.mem_cons.mpr (Or.inr ?_)))
          refine List.mem_map.mpr ⟨a :: q3, ?_, rfl⟩
          exact (ih1 hwfc0 (a :: q3)).mpr ⟨by simp, hdesc⟩
      · have hlook2 : lookupChild rest k = some c := by
          rw [show lookupChild ((k0, c0) :: rest) k = lookupChild rest k by simp [lookupChild, hk]] at hlook
          exact hlook
        exact List.mem_append.mpr (Or.inr ((ih2 hwfrest hndrest (k :: q2)).mpr
          ⟨k, q2, c, rfl, hlook2, hdesc⟩))

theorem nodup_allPaths :
    (∀ r : Route, wfRoute r = true → (allPaths r).Nodup) ∧
    (∀ cs : List (String × Route), wfChildren cs = true → (cs.map Prod.fst).Nodup →
      (allPathsChildren cs).Nodup) := by
  refine indBoth _ _ ?_ ?_ ?_
  · intro ps lp cs ih hwf
    obtain ⟨hnd, hwfc⟩ := (wfRoute_mk_iff ps lp cs).mp hwf
    rw [allPaths_mk]
    exact ih hwfc hnd
  · intro _ _
    simp [allPathsChildren]
  · intro k0 c0 rest ih1 ih2 hwf hnd
    obtain ⟨hwfc0, hwfrest⟩ := (wfChildren_cons_iff k0 c0 rest).mp hwf
    have hnd2 : (k0 :: rest.map Prod.fst).Nodup := by
      rw [List.map_cons] at hnd
      exact hnd
    have hk0 : k0 ∉ rest.map Prod.fst := (List.nodup_cons.mp hnd2).1
    have hndrest : (rest.map Prod.fst).Nodup := (List.nodup_cons.mp hnd2).2
    rw [allPathsChildren_cons]
    rw [List.nodup_append]
    refine ⟨?_, ih2 hwfrest hndrest, ?_⟩
    · rw [List.nodup_cons]
      constructor
      · intro hmem
        obtain ⟨q2, hq2, heq⟩ := List.mem_map.mp hmem
        have : q2 = [] := (List.cons_eq_cons.mp heq.symm).2.symm
        subst this
        exact allPaths_ne_nil.1 c0 [] hq2 rfl
      · exact (ih1 hwfc0).map (fun a b h => (List.cons_eq_cons.mp h).2)
    · intro q hq1 hq2
      have hhead := head_mem_of_mem_allPathsChildren rest q hq2
      obtain ⟨k, q3, rfl, hk⟩ := hhead
      rcases List.mem_cons.mp hq1 with hq1 | hq1
      · obtain ⟨rfl, -⟩ := List.cons_eq_cons.mp hq1.symm
        exact hk0 hk
      · obtain ⟨q4, -, heq⟩ := List.mem_map.mp hq1
        obtain ⟨rfl, -⟩ := List.cons_eq_cons.mp heq
        exact hk0 hk

theorem wfChildren_lookup (cs : List (String × Route)) (k : String) (c : Route)
    (hwf : wfChildren cs = true) (hc : lookupChild cs k = some c) : wfRoute c = true := by
  induction cs with
  | nil => simp [lookupChild] at hc
  | cons hd rest ih =>
    obtain ⟨k0, c0⟩ := hd
    obtain ⟨h1, h2⟩ := (wfChildren_cons_iff k0 c0 rest).mp hwf
    by_cases hk : k0 = k
    · subst hk
      rw [lookupChild_cons_self] at hc
      injection hc with hc
      subst hc
      exact h1
    · rw [show lookupChild ((k0, c0) :: rest) k = lookupChild rest k by
        simp [lookupChild, hk]] at hc
      exact ih h2 hc

theorem wfChildren_setChild (cs : List (String × Route)) (k : String) (v : Route)
    (hwf : wfChildren cs = true) (hv : wfRoute v = true) :
    wfChildren (setChild cs k v) = true := by
  induction cs with
  | nil =>
    show wfChildren [(k, v)] = true
    rw [wfChildren_cons_iff]
    exact ⟨hv, rfl⟩
  | cons hd rest ih =>
    obtain ⟨k0, c0⟩ := hd
    obtain ⟨h1, h2⟩ := (wfChildren_cons_iff k0 c0 rest).mp hwf
    by_cases hk : k0 = k
    · subst hk
      rw [show setChild ((k0, c0) :: rest) k0 v = (k0, v) :: rest by simp [setChild]]
      exact (wfChildren_cons_iff _ _ _).mpr ⟨hv, h2⟩
    · rw [show setChild ((k0, c0) :: rest) k v = (k0, c0) :: setChild rest k v by
        simp [setChild, hk]]
      exact (wfChildren_cons_iff _ _ _).mpr ⟨h1, ih h2⟩

theorem wfRoute_newChild (p : String) : wfRoute (setListPagePath newRoute p) = true := by
  rw [show setListPagePath newRoute p = Route.mk [] (some ⟨p⟩) [] from rfl]
  rfl

theorem wfRoute_appendPage (c : Route) (p : ArticlePage) :
    wfRoute (Route.appendPage c p) = wfRoute c := by
  cases c with
  | mk ps lp cs => rfl

theorem wfRoute_insertChild (cs : List (String × Route)) (seg : String) (pre : List String)
    (hwf : wfChildren cs = true) : wfRoute (insertChild cs seg pre) = true := by
  cases hc : lookupChild cs seg with
  | none =>
    rw [show insertChild cs seg pre = setListPagePath newRoute (filepathJoin pre) by
      simp [insertChild, hc]]
    exact wfRoute_newChild _
  | some c =>
    rw [show insertChild cs seg pre = c by simp [insertChild, hc]]
    exact wfChildren_lookup cs seg c hwf hc

theorem nodup_keys_setChild (cs : List (String × Route)) (k : String) (v : Route)
    (hnd : (cs.map Prod.fst).Nodup) : ((setChild cs k v).map Prod.fst).Nodup := by
  rw [keys_setChild]
  by_cases hs : (lookupChild cs k).isSome = true
  case pos =>
    rw [if_pos hs]
    exact hnd
  case neg =>
    have hk : k ∉ cs.map Prod.fst := by
      apply (lookupChild_none_iff cs k).mp
      cases hl : lookupChild cs k with
      | none => rfl
      | some c =>
        rw [hl] at hs
        simp at hs
    rw [if_neg hs]
    rw [List.nodup_append]
    exact ⟨hnd, List.nodup_singleton k, by
      intro a ha hb
      rw [List.mem_singleton] at hb
      subst hb
      exact hk ha⟩

theorem wf_insertSegs (page : ArticlePage) (rest : List String) :
    ∀ (pre : List String) (r : Route), wfRoute r = true →
      wfRoute (insertSegs page pre rest r) = true := by
  induction rest with
  | nil =>
    intro pre r h
    exact h
  | cons seg rest ih =>
    intro pre r hwf
    cases r with
    | mk ps lp cs =>
      obtain ⟨hnd, hwfc⟩ := (wfRoute_mk_iff ps lp cs).mp hwf
      cases rest with
      | nil =>
        rw [show insertSegs page pre [seg] (Route.mk ps lp cs) =
              Route.mk ps lp (setChild cs seg ((insertChild cs seg pre).appendPage page))
            from rfl]
        rw [wfRoute_mk_iff]
        refine ⟨nodup_keys_setChild cs seg _ hnd, ?_⟩
        apply wfChildren_setChild cs seg _ hwfc
        rw [wfRoute_appendPage]
        exact wfRoute_insertChild cs seg pre hwfc
      | cons seg2 rest2 =>
        rw [show insertSegs page pre (seg :: seg2 :: rest2) (Route.mk ps lp cs) =
              Route.mk ps lp (setChild cs seg
                (insertSegs page (pre ++ [seg]) (seg2 :: rest2) (insertChild cs seg pre)))
            from rfl]
        rw [wfRoute_mk_iff]
        refine ⟨nodup_keys_setChild cs seg _ hnd, ?_⟩
        apply wfChildren_setChild cs seg _ hwfc
        exact ih (pre ++ [seg]) _ (wfRoute_insertChild cs seg pre hwfc)

theorem wf_registerPage (s : Route) (page : ArticlePage) (hwf : wfRoute s = true) :
    wfRoute (registerPage s page) = true :=
  wf_insertSegs page _ [] s hwf

theorem wf_foldl_registerPage (pages : List ArticlePage) :
    ∀ (s : Route), wfRoute s = true → wfRoute (pages.foldl registerPage s) = true := by
  induction pages with
  | nil =>
    intro s h
    exact h
  | cons p rest ih =>
    intro s h
    exact ih (registerPage s p) (wf_registerPage s p h)

theorem wfRoute_newSite : wfRoute newSite = true := by decide

theorem count_filter_decide (q : List String) (p : List String → Bool) :
    ∀ l : List (List String), (l.filter p).count q = if p q then l.count q else 0 := by
  intro l
  induction l with
  | nil => simp
  | cons a l ih =>
    by_cases ha : p a
    · rw [List.filter_cons_of_pos ha]
      by_cases haq : a = q
      · subst haq
        rw [if_pos ha]
        rw [List.count_cons_self, List.count_cons_self, ih, if_pos ha]
      · rw [List.count_cons_of_ne (by simpa using Ne.symm haq),
          List.count_cons_of_ne (by simpa using Ne.symm haq), ih]
    · rw [List.filter_cons_of_neg ha]
      by_cases haq : a = q
      · subst haq
        rw [if_neg ha, ih, if_neg ha]
      · rw [ih]
        by_cases hp : p q
        · rw [if_pos hp, if_pos hp, List.count_cons_of_ne (by simpa using Ne.symm haq)]
        · rw [if_neg hp, if_neg hp]

theorem count_nodup (l : List (List String)) (hnd : l.Nodup) (q : List String) :
    l.count q = if q ∈ l then 1 else 0 := by
  induction l with
  | nil => simp
  | cons a l ih =>
    obtain ⟨ha, hndl⟩ := List.nodup_cons.mp hnd
    by_cases haq : a = q
    · subst haq
      rw [List.count_cons_self, if_pos (List.mem_cons_self a l)]
      have hz : l.count a = 0 := by
        rw [ih hndl, if_neg ha]
      omega
    · rw [List.count_cons_of_ne (by simpa using Ne.symm haq), ih hndl]
      by_cases hm : q ∈ l
      · rw [if_pos hm, if_pos (List.mem_cons.mpr (Or.inr hm))]
      · rw [if_neg hm, if_neg (by
          intro hc
          rcases List.mem_cons.mp hc with hc | hc
          · exact haq hc.symm
          · exact hm hc)]

theorem count_allPaths (r : Route) (hwf : wfRoute r = true) (q : List String) :
    (allPaths r).count q = if q ∈ allPaths r then 1 else 0 :=
  count_nodup _ (nodup_allPaths.1 r hwf) q

end V1

section ClaimsC6

open V1

/-- C6: on any site built by registerPage, WalkRoutes with maximal depth d
invokes the callback exactly once per reachable route within the depth
bound and not at all on the others: the number of visits of the route at
key path q equals one exactly when q names an existing strict descendant
of the root and q lies within the depth bound (any negative d, of which
the source uses only -1, means unbounded; otherwise routes deeper than d
levels are not visited, so with d = 1 exactly the immediate children of
the root are visited).  The walker itself is a pure traversal: the
embedding returns only the visit log and the tree is untouched. -/
theorem c6_walk (pages : List ArticlePage) (d : Int) (q : List String) :
    (WalkRoutes (pages.foldl registerPage newSite) d).count q =
      if q ≠ [] ∧ (descend (pages.foldl registerPage newSite) q).isSome = true ∧
          (d < 0 ∨ (q.length : Int) ≤ d)
      then 1 else 0 := by
  have hwf : wfRoute (pages.foldl registerPage newSite) = true :=
    wf_foldl_registerPage pages newSite wfRoute_newSite
  have hmem := mem_allPaths_iff.1 _ hwf
  rcases lt_or_le d 0 with hd | hd
  · rw [WalkRoutes, (walkRoute_neg d hd).1 _ 0 (by omega)]
    rw [count_allPaths _ hwf q]
    by_cases hm : q ∈ allPaths (pages.foldl registerPage newSite)
    · rw [if_pos hm]
      obtain ⟨h1, h2⟩ := (hmem q).mp hm
      rw [if_pos ⟨h1, h2, Or.inl hd⟩]
    · rw [if_neg hm]
      by_cases hcond : q ≠ [] ∧
          (descend (pages.foldl registerPage newSite) q).isSome = true ∧
          (d < 0 ∨ (q.length : Int) ≤ d)
      · exact absurd ((hmem q).mpr ⟨hcond.1, hcond.2.1⟩) hm
      · rw [if_neg hcond]
  · rw [WalkRoutes, (walkRoute_bounded d hd).1 _ 0 (by omega) (by omega)]
    rw [count_filter_decide q _ _]
    by_cases hlen : (0 + (q.length : Int) ≤ d)
    · rw [if_pos (by simpa using hlen)]
      rw [count_allPaths _ hwf q]
      by_cases hm : q ∈ allPaths (pages.foldl registerPage newSite)
      · rw [if_pos hm]
        obtain ⟨h1, h2⟩ := (hmem q).mp hm
        rw [if_pos ⟨h1, h2, Or.inr (by omega)⟩]
      · rw [if_neg hm]
        by_cases hcond : q ≠ [] ∧
            (descend (pages.foldl registerPage newSite) q).isSome = true ∧
            (d < 0 ∨ (q.length : Int) ≤ d)
        · exact absurd ((hmem q).mpr ⟨hcond.1, hcond.2.1⟩) hm
        · rw [if_neg hcond]
    · rw [if_neg (by simpa using hlen)]
      have hcond : ¬(q ≠ [] ∧
          (descend (pages.foldl registerPage newSite) q).isSome = true ∧
          (d < 0 ∨ (q.length : Int) ≤ d)) := by
        rintro ⟨-, -, ho⟩
        rcases ho with ho | ho
        · omega
        · exact hlen (by omega)
      rw [if_neg hcond]

end ClaimsC6

namespace V2

mutual

theorem ind2R (m1 : RouteInfo → Prop) (m2 : List (String × RouteInfo) → Prop)
    (h1 : ∀ ps lp ip cs, m2 cs → m1 (.mk ps lp ip cs))
    (hnil : m2 [])
    (hcons : ∀ k c rest, m1 c → m2 rest → m2 ((k, c) :: rest)) :
    ∀ r, m1 r
  | .mk ps lp ip cs => h1 ps lp ip cs (ind2L m1 m2 h1 hnil hcons cs)

theorem ind2L (m1 : RouteInfo → Prop) (m2 : List (String × RouteInfo) → Prop)
    (h1 : ∀ ps lp ip cs, m2 cs → m1 (.mk ps lp ip cs))
    (hnil : m2 [])
    (hcons : ∀ k c rest, m1 c → m2 rest → m2 ((k, c) :: rest)) :
    ∀ cs, m2 cs
  | [] => hnil
  | (k, c) :: rest =>
    hcons k c rest (ind2R m1 m2 h1 hnil hcons c) (ind2L m1 m2 h1 hnil hcons rest)

end

theorem ind2Both (m1 : RouteInfo → Prop) (m2 : List (String × RouteInfo) → Prop)
    (h1 : ∀ ps lp ip cs, m2 cs → m1 (.mk ps lp ip cs))
    (hnil : m2 [])
    (hcons : ∀ k c rest, m1 c → m2 rest → m2 ((k, c) :: rest)) :
    (∀ r, m1 r) ∧ ∀ cs, m2 cs :=
  ⟨ind2R m1 m2 h1 hnil hcons, ind2L m1 m2 h1 hnil hcons⟩

theorem descend2_mk_cons (ps : List ArticlePage) (lp : Option ListPage)
    (ip : Option IndexPage) (cs : List (String × RouteInfo)) (k : String) (q : List String) :
    descend (.mk ps lp ip cs) (k :: q) =
      (match lookupChild cs k with
       | none => none
       | some c => descend c q) := by
  cases h : lookupChild cs k <;> simp [descend, RouteInfo.children, h]

theorem childPath_none (k : String) : childPath none k = k := rfl

theorem childPath_some (r k : String) : childPath (some r) k = r ++ "/" ++ k := rfl

theorem extendPath_nil (r : String) : extendPath r [] = r := rfl

theorem extendPath_cons (r k : String) (ks : List String) :
    extendPath r (k :: ks) = extendPath (r ++ "/" ++ k) ks := rfl

theorem buildListChildren_cons2 (s : Bool) (pre : Option String) (k : String)
    (c : RouteInfo) (rest : List (String × RouteInfo)) :
    buildListChildren s pre ((k, c) :: rest) =
      (k, buildListSub s (childPath pre k) c) :: buildListChildren s pre rest := rfl

theorem buildListSub_children (s : Bool) (r : String) (ps : List ArticlePage)
    (lp : Option ListPage) (ip : Option IndexPage) (cs : List (String × RouteInfo)) :
    (buildListSub s r (.mk ps lp ip cs)).children = buildListChildren s (some r) cs := by
  cases ip <;> rfl

theorem buildListSub_fields_none (s : Bool) (r : String) (ps : List ArticlePage)
    (lp : Option ListPage) (cs : List (String × RouteInfo)) :
    (buildListSub s r (.mk ps lp none cs)).pages = (if s then sortSlice ps else ps) ∧
    (buildListSub s r (.mk ps lp none cs)).listPage =
      some ⟨r, (if s then sortSlice ps else ps).map
        (fun p => if p.article.hide then none else some p)⟩ ∧
    (buildListSub s r (.mk ps lp none cs)).indexPage = none := by
  refine ⟨rfl, rfl, rfl⟩

theorem buildListSub_fields_some (s : Bool) (r : String) (ps : List ArticlePage)
    (lp : Option ListPage) (i : IndexPage) (cs : List (String × RouteInfo)) :
    (buildListSub s r (.mk ps lp (some i) cs)).pages = ps ∧
    (buildListSub s r (.mk ps lp (some i) cs)).listPage = lp ∧
    (buildListSub s r (.mk ps lp (some i) cs)).indexPage = some i := by
  refine ⟨rfl, rfl, rfl⟩

theorem lookup_buildListChildren (s : Bool) (pre : Option String)
    (cs : List (String × RouteInfo)) (k : String) :
    lookupChild (buildListChildren s pre cs) k =
      (lookupChild cs k).map (buildListSub s (childPath pre k)) := by
  induction cs with
  | nil => rfl
  | cons hd rest ih =>
    obtain ⟨k0, c0⟩ := hd
    by_cases hk : k0 = k
    · subst hk
      rw [buildListChildren_cons2]
      simp [lookupChild]
    · rw [buildListChildren_cons2]
      simp only [lookupChild, if_neg hk]
      exact ih

theorem descend_buildListSub (s : Bool) :
    ∀ (q : List String) (r : String) (n : RouteInfo),
      descend (buildListSub s r n) q = (descend n q).map (buildListSub s (extendPath r q)) := by
  intro q
  induction q with
  | nil =>
    intro r n
    simp [descend, extendPath_nil]
  | cons k ks ih =>
    intro r n
    cases n with
    | mk ps lp ip cs =>
      rw [show descend (buildListSub s r (.mk ps lp ip cs)) (k :: ks) =
            (match lookupChild (buildListSub s r (.mk ps lp ip cs)).children k with
             | none => none
             | some c => descend c ks) from by
        cases h : lookupChild (buildListSub s r (.mk ps lp ip cs)).children k <;>
          simp [descend, h]]
      rw [buildListSub_children, lookup_buildListChildren, descend2_mk_cons, childPath_some,
        extendPath_cons]
      cases hl : lookupChild cs k with
      | none => rfl
      | some c =>
        simp only [Option.map_some]
        exact ih (r ++ "/" ++ k) c

theorem descend_buildListPages (s : Bool) (t : RouteInfo) (k : String) (ks : List String) :
    descend (buildListPages s t) (k :: ks) =
      (descend t (k :: ks)).map (buildListSub s (extendPath k ks)) := by
  cases t with
  | mk ps lp ip cs =>
    rw [show buildListPages s (.mk ps lp ip cs) =
          RouteInfo.mk ps lp ip (buildListChildren s none cs) from rfl]
    rw [descend2_mk_cons, lookup_buildListChildren, descend2_mk_cons, childPath_none]
    cases hl : lookupChild cs k with
    | none => rfl
    | some c =>
      simp only [Option.map_some]
      exact descend_buildListSub s ks k c

theorem sortSlice_perm (ps : List ArticlePage) : (sortSlice ps).Perm ps :=
  List.perm_insertionSort _ _

theorem sortSlice_sorted (ps : List ArticlePage) :
    List.Sorted (fun a b : ArticlePage => b.article.date ≤ a.article.date) (sortSlice ps) :=
  List.sorted_insertionSort _ _

end V2

section ClaimsV2A

open V2

/-- C1: buildListPages on a route holding one visible article (dated
2023-03-01) and one hidden article (dated 2023-01-01, registered first)
produces a List Page whose ArticlePages slice has two entries, the visible
page followed by a nil hole at the hidden article's index, because the
slice is pre-sized to the number of pages and the loop skips the
assignment for hidden articles; the claim's single-entry list does not
occur. -/
theorem c1_evidence :
    (descend (buildListPages true exListTree) ["blog"]).map (fun n =>
        n.listPage.map (fun lp =>
          (lp.path, lp.articlePages.map (fun e => e.map (fun p => p.article.id)))))
      = some (some ("blog", [some "post-a", none])) ∧
    (pagesAt exListTree ["blog"]).map (fun p => (p.article.id, p.article.hide))
      = [("post-b", true), ("post-a", false)] :=
  ⟨rfl, rfl⟩

/-- C8 counterexample: with sorting enabled, buildListPages reorders the
route's own Pages slice, so the ordering does not operate on a copy: the
blog route registered as older-then-newer holds newer-then-older after the
pass. -/
theorem c8_counterexample :
    (pagesAt (buildListPages true exSortTree) ["blog"]).map (fun p => p.article.id)
      = ["new", "old"] ∧
    (pagesAt exSortTree ["blog"]).map (fun p => p.article.id) = ["old", "new"] ∧
    pagesAt (buildListPages true exSortTree) ["blog"] ≠ pagesAt exSortTree ["blog"] := by
  refine ⟨rfl, rfl, ?_⟩
  intro h
  have h2 := congrArg (fun l => l.map (fun p => p.article.id)) h
  have e1 : (pagesAt (buildListPages true exSortTree) ["blog"]).map (fun p => p.article.id)
      = ["new", "old"] := rfl
  have e2 : (pagesAt exSortTree ["blog"]).map (fun p => p.article.id) = ["old", "new"] := rfl
  simp only at h2
  rw [e1, e2] at h2
  exact absurd h2 (by decide)

/-- C8 amended: with sorting enabled, for every route (reached by a
nonempty key path) without an index page, buildListPages replaces the
route's own Pages slice by its in-place sort.Slice reordering — a
permutation of the original pages that is sorted by article date, most
recent first (Go's sort.Slice gives no stability guarantee) — and the new
List Page carries the route's full path and one entry per reordered page,
nil at hidden positions. -/
theorem c8_amended (t : RouteInfo) (k : String) (ks : List String) (n : RouteInfo)
    (h : descend t (k :: ks) = some n) (hidx : n.indexPage = none) :
    ∃ n2, descend (buildListPages true t) (k :: ks) = some n2 ∧
      n2.pages = sortSlice n.pages ∧
      n2.pages.Perm n.pages ∧
      List.Sorted (fun a b : ArticlePage => b.article.date ≤ a.article.date) n2.pages ∧
      n2.listPage = some ⟨extendPath k ks,
        n2.pages.map (fun p => if p.article.hide then none else some p)⟩ := by
  cases n with
  | mk ps lp ip cs =>
    simp only [RouteInfo.indexPage] at hidx
    subst hidx
    refine ⟨buildListSub true (extendPath k ks) (.mk ps lp none cs), ?_, ?_, ?_, ?_, ?_⟩
    · rw [descend_buildListPages, h]
      rfl
    · rw [(buildListSub_fields_none true (extendPath k ks) ps lp cs).1]
      simp [RouteInfo.pages]
    · rw [(buildListSub_fields_none true (extendPath k ks) ps lp cs).1]
      simp only [if_true, RouteInfo.pages]
      simpa using sortSlice_perm ps
    · rw [(buildListSub_fields_none true (extendPath k ks) ps lp cs).1]
      simp only [if_true]
      exact sortSlice_sorted ps
    · rw [(buildListSub_fields_none true (extendPath k ks) ps lp cs).2.1,
        (buildListSub_fields_none true (extendPath k ks) ps lp cs).1]

/-- C8 witness: the amended statement applied to the concrete two-article
route of exSortTree. -/
theorem c8_witness :
    ∃ n2, descend (buildListPages true exSortTree) ["blog"] = some n2 ∧
      n2.pages = sortSlice exSortNode.pages ∧
      n2.pages.Perm exSortNode.pages ∧
      List.Sorted (fun a b : ArticlePage => b.article.date ≤ a.article.date) n2.pages ∧
      n2.listPage = some ⟨extendPath "blog" [],
        n2.pages.map (fun p => if p.article.hide then none else some p)⟩ :=
  c8_amended exSortTree "blog" [] exSortNode (by rfl) (by rfl)

end ClaimsV2A

namespace V2

theorem addIdxAllList_cons (l : List ArticlePage) (k : String) (c : RouteInfo)
    (rest : List (String × RouteInfo)) :
    addIdxAllList l ((k, c) :: rest) = (k, addIdxAll l c) :: addIdxAllList l rest := rfl

theorem addIdxAll_children (l : List ArticlePage) (ps : List ArticlePage)
    (lp : Option ListPage) (ip : Option IndexPage) (cs : List (String × RouteInfo)) :
    (addIdxAll l (.mk ps lp ip cs)).children = addIdxAllList l cs := rfl

theorem addIdxAll_indexPage (l : List ArticlePage) (n : RouteInfo) :
    (addIdxAll l n).indexPage = idxAppend n.indexPage l := by
  cases n with
  | mk ps lp ip cs => rfl

theorem lookup_addIdxAllList (l : List ArticlePage) (cs : List (String × RouteInfo))
    (k : String) :
    lookupChild (addIdxAllList l cs) k = (lookupChild cs k).map (addIdxAll l) := by
  induction cs with
  | nil => rfl
  | cons hd rest ih =>
    obtain ⟨k0, c0⟩ := hd
    rw [addIdxAllList_cons]
    by_cases hk : k0 = k
    · subst hk
      simp [lookupChild]
    · simp only [lookupChild, if_neg hk]
      exact ih

theorem descend_addIdxAll (l : List ArticlePage) :
    ∀ (q : List String) (n : RouteInfo),
      descend (addIdxAll l n) q = (descend n q).map (addIdxAll l) := by
  intro q
  induction q with
  | nil =>
    intro n
    simp [descend]
  | cons k ks ih =>
    intro n
    cases n with
    | mk ps lp ip cs =>
      rw [show descend (addIdxAll l (.mk ps lp ip cs)) (k :: ks) =
            (match lookupChild (addIdxAll l (.mk ps lp ip cs)).children k with
             | none => none
             | some c => descend c ks) from by
        cases h : lookupChild (addIdxAll l (.mk ps lp ip cs)).children k <;>
          simp [descend, h]]
      rw [addIdxAll_children, lookup_addIdxAllList, descend2_mk_cons]
      cases hl : lookupChild cs k with
      | none => rfl
      | some c =>
        simp only [Option.map_some]
        exact ih c

theorem descend_addPass (t : RouteInfo) (k : String) (ks : List String) :
    descend (addArticlePagesToIndexPages t) (k :: ks) =
      (descend t (k :: ks)).map (addIdxAll (allVisiblePages t)) := by
  cases ht : t with
  | mk ps lp ip cs =>
    rw [show addArticlePagesToIndexPages (.mk ps lp ip cs) =
          RouteInfo.mk ps lp ip (addIdxAllList (allVisiblePages (.mk ps lp ip cs)) cs)
        from rfl]
    rw [descend2_mk_cons, lookup_addIdxAllList, descend2_mk_cons]
    cases hl : lookupChild cs k with
    | none => rfl
    | some c =>
      simp only [Option.map_some]
      exact descend_addIdxAll _ ks c

theorem mem_allVisiblePages (t : RouteInfo) (p : ArticlePage) :
    p ∈ allVisiblePages t ↔
      ∃ pr, pr ∈ WalkRoutes t ∧ p ∈ pr.2.pages ∧ p.article.hide = false := by
  rw [allVisiblePages]
  rw [List.mem_flatten]
  constructor
  · rintro ⟨l, hl, hp⟩
    obtain ⟨pr, hpr, rfl⟩ := List.mem_map.mp hl
    obtain ⟨hmem, hhide⟩ := List.mem_filter.mp hp
    refine ⟨pr, hpr, hmem, ?_⟩
    simpa using hhide
  · rintro ⟨pr, hpr, hmem, hhide⟩
    refine ⟨pr.2.pages.filter (fun p => !p.article.hide),
      List.mem_map.mpr ⟨pr, hpr, rfl⟩, ?_⟩
    exact List.mem_filter.mpr ⟨hmem, by simp [hhide]⟩

end V2

section ClaimsV2B

open V2

/-- C7: after addArticlePagesToIndexPages, every route of the tree (the
nodes reached by nonempty key paths) is the old node with the index-page
update applied to it and its whole subtree; the update appends the full
site-wide visible-page collection to the aggregate of every route that
owns an index page and does nothing elsewhere; and the appended
collection holds exactly the non-hidden pages of every walked route —
site-wide, not subtree-scoped. -/
theorem c7_aggregate (t : RouteInfo) :
    (∀ k ks, descend (addArticlePagesToIndexPages t) (k :: ks) =
        (descend t (k :: ks)).map (addIdxAll (allVisiblePages t))) ∧
    (∀ n : RouteInfo, (addIdxAll (allVisiblePages t) n).indexPage =
        idxAppend n.indexPage (allVisiblePages t)) ∧
    (∀ p, p ∈ allVisiblePages t ↔
        ∃ pr, pr ∈ WalkRoutes t ∧ p ∈ pr.2.pages ∧ p.article.hide = false) :=
  ⟨fun k ks => descend_addPass t k ks,
   fun n => addIdxAll_indexPage (allVisiblePages t) n,
   fun p => mem_allVisiblePages t p⟩

/-- C7 witness: on the concrete site with index routes a and b and three
articles a1, a2 (visible) and a3 (hidden) under other routes, both index
aggregates receive exactly the two visible articles. -/
theorem c7_witness :
    ((descend (addArticlePagesToIndexPages exIdxTree) ["a"]).map (fun n =>
        n.indexPage.map (fun i => i.articlePages.map (fun p => p.article.id))))
      = some (some ["a1", "a2"]) ∧
    ((descend (addArticlePagesToIndexPages exIdxTree) ["b"]).map (fun n =>
        n.indexPage.map (fun i => i.articlePages.map (fun p => p.article.id))))
      = some (some ["a1", "a2"]) := by
  have h1 := (c7_aggregate exIdxTree).1 "a" []
  have h2 := (c7_aggregate exIdxTree).1 "b" []
  rw [h1, h2]
  exact ⟨rfl, rfl⟩

end ClaimsV2B

namespace V2

theorem splitLink_isSome (link : String) : (splitLink link).isSome = linkHasSlash link := by
  rw [splitLink, linkHasSlash]
  cases h : lastIdxOf '/' link.data <;> simp [h]

theorem resolveLink_isSome (t : RouteInfo) (link : String) :
    (resolveLink t link).isSome = linkHasSlash link := by
  rw [resolveLink, ← splitLink_isSome]
  cases h : splitLink link with
  | none => rfl
  | some pi =>
    obtain ⟨p, i⟩ := pi
    rfl

theorem resolveLinks_isSome (t : RouteInfo) :
    ∀ links : List String, (resolveLinks t links).isSome = links.all linkHasSlash := by
  intro links
  induction links with
  | nil => rfl
  | cons link rest ih =>
    rw [resolveLinks, List.all_cons]
    cases hrl : resolveLink t link with
    | none =>
      have : linkHasSlash link = false := by
        rw [← resolveLink_isSome t link, hrl]
        rfl
      rw [this]
      rfl
    | some e =>
      have hl : linkHasSlash link = true := by
        rw [← resolveLink_isSome t link, hrl]
        rfl
      rw [hl]
      cases hrr : resolveLinks t rest with
      | none =>
        have : rest.all linkHasSlash = false := by
          rw [← ih, hrr]
          rfl
        rw [this]
        rfl
      | some l =>
        have : rest.all linkHasSlash = true := by
          rw [← ih, hrr]
          rfl
        rw [this]
        rfl

theorem updPage_isSome (t : RouteInfo) (p : ArticlePage) :
    (updPage t p).isSome = p.article.related.all linkHasSlash := by
  rw [updPage, ← resolveLinks_isSome t]
  cases h : resolveLinks t p.article.related with
  | none => rfl
  | some l =>
    cases p with
    | mk path a =>
      cases a with
      | mk i ti de d hh r rp => rfl

theorem updPages_isSome (t : RouteInfo) :
    ∀ ps : List ArticlePage, (updPages t ps).isSome = pagesLinksOk ps := by
  intro ps
  induction ps with
  | nil => rfl
  | cons p rest ih =>
    rw [updPages, show pagesLinksOk (p :: rest) =
      ((p.article.related.all linkHasSlash) && pagesLinksOk rest) from by
        simp [pagesLinksOk]]
    cases hp : updPage t p with
    | none =>
      have : p.article.related.all linkHasSlash = false := by
        rw [← updPage_isSome t p, hp]
        rfl
      rw [this]
      rfl
    | some p2 =>
      have hl : p.article.related.all linkHasSlash = true := by
        rw [← updPage_isSome t p, hp]
        rfl
      rw [hl]
      cases hr : updPages t rest with
      | none =>
        have : pagesLinksOk rest = false := by
          rw [← ih, hr]
          rfl
        rw [this]
        rfl
      | some l =>
        have : pagesLinksOk rest = true := by
          rw [← ih, hr]
          rfl
        rw [this]
        rfl

theorem buildRelated_isSome_parts (t : RouteInfo) :
    (∀ n, (buildRelatedSub t n).isSome = nodeLinksOk n) ∧
    (∀ cs, (buildRelatedWalk t cs).isSome = childrenLinksOk cs) := by
  refine ind2Both _ _ ?_ ?_ ?_
  · intro ps lp ip cs ih
    rw [buildRelatedSub, show nodeLinksOk (.mk ps lp ip cs) =
      (pagesLinksOk ps && childrenLinksOk cs) from rfl]
    cases hp : updPages t ps with
    | none =>
      have : pagesLinksOk ps = false := by
        rw [← updPages_isSome t ps, hp]
        rfl
      rw [this]
      rfl
    | some ps2 =>
      have hl : pagesLinksOk ps = true := by
        rw [← updPages_isSome t ps, hp]
        rfl
      rw [hl]
      cases hw : buildRelatedWalk t cs with
      | none =>
        have : childrenLinksOk cs = false := by
          rw [← ih, hw]
          rfl
        rw [this]
        rfl
      | some cs2 =>
        have : childrenLinksOk cs = true := by
          rw [← ih, hw]
          rfl
        rw [this]
        rfl
  · rfl
  · intro k c rest ih1 ih2
    rw [buildRelatedWalk, show childrenLinksOk ((k, c) :: rest) =
      (nodeLinksOk c && childrenLinksOk rest) from rfl]
    cases hc : buildRelatedSub t c with
    | none =>
      have : nodeLinksOk c = false := by
        rw [← ih1, hc]
        rfl
      rw [this]
      rfl
    | some c2 =>
      have hl : nodeLinksOk c = true := by
        rw [← ih1, hc]
        rfl
      rw [hl]
      cases hr : buildRelatedWalk t rest with
      | none =>
        have : childrenLinksOk rest = false := by
          rw [← ih2, hr]
          rfl
        rw [this]
        rfl
      | some rest2 =>
        have : childrenLinksOk rest = true := by
          rw [← ih2, hr]
          rfl
        rw [this]
        rfl

end V2

section ClaimsV2C

open V2

/-- C10: buildRelated runs to completion exactly when every related link
of every article it processes contains at least one slash: on any other
input, link[:strings.LastIndex(link, slash)] has the negative bound -1
and the run aborts with the out-of-range fault (the none outcome of the
embedding), and under the precondition the fault is unreachable. -/
theorem c10_total (t : RouteInfo) :
    (buildRelated t).isSome = relatedLinksOk t ∧
    (∀ link, (splitLink link).isSome = linkHasSlash link) ∧
    (buildRelated (registerPage emptySite exNoSlash)).isSome = false := by
  refine ⟨?_, splitLink_isSome, ?_⟩
  · cases t with
    | mk ps lp ip cs =>
      rw [buildRelated, show relatedLinksOk (.mk ps lp ip cs) = childrenLinksOk cs from rfl]
      cases hw : buildRelatedWalk (RouteInfo.mk ps lp ip cs) cs with
      | none =>
        have : childrenLinksOk cs = false := by
          rw [← (buildRelated_isSome_parts (RouteInfo.mk ps lp ip cs)).2 cs, hw]
          rfl
        rw [this]
        rfl
      | some cs2 =>
        have : childrenLinksOk cs = true := by
          rw [← (buildRelated_isSome_parts (RouteInfo.mk ps lp ip cs)).2 cs, hw]
          rfl
        rw [this]
        rfl
  · rfl

end ClaimsV2C

namespace V2

theorem lookupChild_cons_self2 (k : String) (c : RouteInfo)
    (rest : List (String × RouteInfo)) :
    lookupChild ((k, c) :: rest) k = some c := by
  simp [lookupChild]

theorem lookup_buildRelatedWalk (t : RouteInfo) :
    ∀ (cs : List (String × RouteInfo)) (cs2 : List (String × RouteInfo)),
      buildRelatedWalk t cs = some cs2 → ∀ k c, lookupChild cs k = some c →
        ∃ c2, buildRelatedSub t c = some c2 ∧ lookupChild cs2 k = some c2 := by
  intro cs
  induction cs with
  | nil =>
    intro cs2 _ k c hc
    exact absurd hc (by simp [lookupChild])
  | cons hd rest ih =>
    obtain ⟨k0, c0⟩ := hd
    intro cs2 hw k c hc
    rw [buildRelatedWalk] at hw
    cases hc0 : buildRelatedSub t c0 with
    | none =>
      rw [hc0] at hw
      exact Option.noConfusion hw
    | some c02 =>
      rw [hc0] at hw
      cases hrest : buildRelatedWalk t rest with
      | none =>
        rw [hrest] at hw
        exact Option.noConfusion hw
      | some rest2 =>
        rw [hrest] at hw
        injection hw with hw
        subst hw
        by_cases hk : k0 = k
        · subst hk
          rw [lookupChild_cons_self2] at hc
          injection hc with hc
          subst hc
          exact ⟨c02, hc0, lookupChild_cons_self2 k0 c02 rest2⟩
        · rw [show lookupChild ((k0, c0) :: rest) k = lookupChild rest k by
            simp [lookupChild, hk]] at hc
          obtain ⟨c2, hsub, hlook⟩ := ih rest2 hrest k c hc
          exact ⟨c2, hsub, by simp [lookupChild, hk, hlook]⟩

theorem buildRelatedSub_pages (t : RouteInfo) (n n2 : RouteInfo)
    (h : buildRelatedSub t n = some n2) : updPages t n.pages = some n2.pages := by
  cases n with
  | mk ps lp ip cs =>
    rw [buildRelatedSub] at h
    cases hp : updPages t ps with
    | none =>
      rw [hp] at h
      exact Option.noConfusion h
    | some ps2 =>
      rw [hp] at h
      cases hw : buildRelatedWalk t cs with
      | none =>
        rw [hw] at h
        exact Option.noConfusion h
      | some cs2 =>
        rw [hw] at h
        injection h with h
        subst h
        rw [show RouteInfo.pages (.mk ps lp ip cs) = ps from rfl]
        rw [hp]
        rfl

theorem buildRelatedSub_children (t : RouteInfo) (n n2 : RouteInfo)
    (h : buildRelatedSub t n = some n2) :
    buildRelatedWalk t n.children = some n2.children := by
  cases n with
  | mk ps lp ip cs =>
    rw [buildRelatedSub] at h
    cases hp : updPages t ps with
    | none =>
      rw [hp] at h
      exact Option.noConfusion h
    | some ps2 =>
      rw [hp] at h
      cases hw : buildRelatedWalk t cs with
      | none =>
        rw [hw] at h
        exact Option.noConfusion h
      | some cs2 =>
        rw [hw] at h
        injection h with h
        subst h
        rw [show RouteInfo.children (.mk ps lp ip cs) = cs from rfl, hw]
        rfl

theorem descend_buildRelatedSub (t : RouteInfo) :
    ∀ (q : List String) (n n2 : RouteInfo), buildRelatedSub t n = some n2 →
      ∀ m, descend n q = some m →
        ∃ m2, descend n2 q = some m2 ∧ updPages t m.pages = some m2.pages := by
  intro q
  induction q with
  | nil =>
    intro n n2 hsub m hm
    rw [show descend n [] = some n from rfl] at hm
    injection hm with hm
    subst hm
    exact ⟨n2, rfl, buildRelatedSub_pages t _ n2 hsub⟩
  | cons k ks ih =>
    intro n n2 hsub m hm
    cases n with
    | mk ps lp ip cs =>
      rw [descend2_mk_cons] at hm
      cases hl : lookupChild cs k with
      | none =>
        rw [hl] at hm
        exact Option.noConfusion hm
      | some c =>
        rw [hl] at hm
        have hwalk := buildRelatedSub_children t _ n2 hsub
        rw [show RouteInfo.children (.mk ps lp ip cs) = cs from rfl] at hwalk
        obtain ⟨c2, hsubc, hlook2⟩ := lookup_buildRelatedWalk t cs n2.children hwalk k c hl
        obtain ⟨m2, hdm2, hupd⟩ := ih c c2 hsubc m hm
        refine ⟨m2, ?_, hupd⟩
        cases n2 with
        | mk ps2 lp2 ip2 cs2 =>
          rw [descend2_mk_cons]
          rw [show RouteInfo.children (.mk ps2 lp2 ip2 cs2) = cs2 from rfl] at hlook2
          rw [hlook2]
          exact hdm2

theorem descend_buildRelated (t t2 : RouteInfo) (h : buildRelated t = some t2)
    (k : String) (ks : List String) (n : RouteInfo) (hn : descend t (k :: ks) = some n) :
    ∃ n2, descend t2 (k :: ks) = some n2 ∧ updPages t n.pages = some n2.pages := by
  cases t with
  | mk ps lp ip cs =>
    rw [buildRelated] at h
    cases hw : buildRelatedWalk (RouteInfo.mk ps lp ip cs) cs with
    | none =>
      rw [hw] at h
      exact Option.noConfusion h
    | some cs2 =>
      rw [hw] at h
      injection h with h
      subst h
      rw [descend2_mk_cons] at hn
      cases hl : lookupChild cs k with
      | none =>
        rw [hl] at hn
        exact Option.noConfusion hn
      | some c =>
        rw [hl] at hn
        obtain ⟨c2, hsubc, hlook2⟩ :=
          lookup_buildRelatedWalk (RouteInfo.mk ps lp ip cs) cs cs2 hw k c hl
        obtain ⟨m2, hdm2, hupd⟩ :=
          descend_buildRelatedSub (RouteInfo.mk ps lp ip cs) ks c c2 hsubc n hn
        refine ⟨m2, ?_, hupd⟩
        rw [descend2_mk_cons, hlook2]
        exact hdm2

theorem updPages_get (t : RouteInfo) :
    ∀ (ps ps2 : List ArticlePage), updPages t ps = some ps2 →
      ps2.length = ps.length ∧
      ∀ (j : Nat) (p : ArticlePage), ps[j]? = some p →
        ∃ p2, updPage t p = some p2 ∧ ps2[j]? = some p2 := by
  intro ps
  induction ps with
  | nil =>
    intro ps2 h
    rw [show updPages t [] = some [] from rfl] at h
    injection h with h
    subst h
    exact ⟨rfl, by intro j p hp; simp at hp⟩
  | cons p rest ih =>
    intro ps2 h
    rw [updPages] at h
    cases hp : updPage t p with
    | none =>
      rw [hp] at h
      exact Option.noConfusion h
    | some p2 =>
      rw [hp] at h
      cases hr : updPages t rest with
      | none =>
        rw [hr] at h
        exact Option.noConfusion h
      | some rest2 =>
        rw [hr] at h
        injection h with h
        subst h
        obtain ⟨hlen, hget⟩ := ih rest2 hr
        refine ⟨by simp [hlen], ?_⟩
        intro j pj hpj
        cases j with
        | zero =>
          simp at hpj
          subst hpj
          exact ⟨p2, hp, by simp⟩
        | succ j =>
          simp only [List.getElem?_cons_succ] at hpj
          obtain ⟨pj2, hupd, hidx⟩ := hget j pj hpj
          exact ⟨pj2, hupd, by simpa using hidx⟩

theorem updPage_spec (t : RouteInfo) (p p2 : ArticlePage) (h : updPage t p = some p2) :
    p2.path = p.path ∧ p2.article.id = p.article.id ∧
    p2.article.related = p.article.related ∧
    ∃ l, resolveLinks t p.article.related = some l ∧
      p2.article.relatedPages = p.article.relatedPages ++ l := by
  cases p with
  | mk path a =>
    cases a with
    | mk i ti de d hh r rp =>
      rw [updPage] at h
      cases hl : resolveLinks t (ArticlePage.mk path (.mk i ti de d hh r rp)).article.related with
      | none =>
        rw [hl] at h
        exact Option.noConfusion h
      | some l =>
        rw [hl] at h
        injection h with h
        subst h
        exact ⟨rfl, rfl, rfl, l, rfl, rfl⟩

theorem resolveLinks_get (t : RouteInfo) :
    ∀ (links : List String) (l : List (Option ArticlePage)),
      resolveLinks t links = some l →
      l.length = links.length ∧
      ∀ (j : Nat) (link : String), links[j]? = some link →
        ∃ pi, splitLink link = some pi ∧ l[j]? = some (resolvePath t pi.1 pi.2) := by
  intro links
  induction links with
  | nil =>
    intro l h
    rw [show resolveLinks t [] = some [] from rfl] at h
    injection h with h
    subst h
    exact ⟨rfl, by intro j link hl; simp at hl⟩
  | cons link rest ih =>
    intro l h
    rw [resolveLinks] at h
    cases he : resolveLink t link with
    | none =>
      rw [he] at h
      exact Option.noConfusion h
    | some e =>
      rw [he] at h
      cases hr : resolveLinks t rest with
      | none =>
        rw [hr] at h
        exact Option.noConfusion h
      | some l2 =>
        rw [hr] at h
        injection h with h
        subst h
        obtain ⟨hlen, hget⟩ := ih l2 hr
        refine ⟨by simp [hlen], ?_⟩
        intro j linkj hlj
        cases j with
        | zero =>
          simp at hlj
          subst hlj
          rw [resolveLink] at he
          cases hs : splitLink link with
          | none =>
            rw [hs] at he
            exact Option.noConfusion he
          | some pi =>
            rw [hs] at he
            injection he with he
            subst he
            exact ⟨pi, rfl, by simp⟩
        | succ j =>
          simp only [List.getElem?_cons_succ] at hlj
          obtain ⟨pi, hs, hidx⟩ := hget j linkj hlj
          exact ⟨pi, hs, by simpa using hidx⟩

end V2

section ClaimsV2D

open V2

/-- C2 counterexample: the article post-2 carries the single related link
/nope/x, whose route does not exist.  buildRelated succeeds, and the
article's RelatedPages — empty before the pass — gains exactly one entry
for the unresolved link, the nil page returned by resolvePath; the
claim's prediction that nothing is appended for an unresolved link does
not hold. -/
theorem c2_counterexample :
    (match buildRelated exOrphanTree with
      | none => none
      | some t => (descend t ["blog"]).map (fun n =>
          n.pages.map (fun p => p.article.relatedPages.map Option.isSome)))
      = some (some [[false]]) ∧
    resolveLink exOrphanTree "/nope/x" = some none ∧
    (pagesAt exOrphanTree ["blog"]).map (fun p => p.article.relatedPages.length) = [0] :=
  ⟨rfl, rfl, rfl⟩

/-- C2 amended: resolution failures are non-fatal (the error from
resolvePath is discarded), but buildRelated appends one entry per
related link to the article's RelatedPages — the entry being exactly the
resolvePath outcome for the link's path and id, which is the nil page
when either does not resolve — rather than appending nothing for failed
links. -/
theorem c2_amended (t t2 : RouteInfo) (h : buildRelated t = some t2) (k : String)
    (ks : List String) (n : RouteInfo) (hn : descend t (k :: ks) = some n) :
    ∃ n2, descend t2 (k :: ks) = some n2 ∧
      n2.pages.length = n.pages.length ∧
      ∀ (j : Nat) (p : ArticlePage), n.pages[j]? = some p →
        ∃ (p2 : ArticlePage), n2.pages[j]? = some p2 ∧
        p2.path = p.path ∧ p2.article.id = p.article.id ∧
        p2.article.related = p.article.related ∧
        ∃ (l : List (Option ArticlePage)),
          p2.article.relatedPages = p.article.relatedPages ++ l ∧
          l.length = p.article.related.length ∧
          ∀ (j2 : Nat) (link : String), p.article.related[j2]? = some link →
            ∃ pi, splitLink link = some pi ∧ l[j2]? = some (resolvePath t pi.1 pi.2) := by
  obtain ⟨n2, hd2, hupd⟩ := descend_buildRelated t t2 h k ks n hn
  obtain ⟨hlen, hget⟩ := updPages_get t n.pages n2.pages hupd
  refine ⟨n2, hd2, hlen, ?_⟩
  intro j p hp
  obtain ⟨p2, hupdp, hidx⟩ := hget j p hp
  obtain ⟨hpath, hid, hrel, l, hl, happ⟩ := updPage_spec t p p2 hupdp
  obtain ⟨hllen, hlget⟩ := resolveLinks_get t p.article.related l hl
  exact ⟨p2, hidx, hpath, hid, hrel, l, happ, hllen, hlget⟩

/-- C2 witness: the amended statement applied to the orphan site, whose
single article has the single unresolvable link /nope/x. -/
theorem c2_witness :
    ∃ n2, descend exResolvedTree ["blog"] = some n2 ∧
      n2.pages.length = exOrphanNode.pages.length ∧
      ∀ (j : Nat) (p : ArticlePage), exOrphanNode.pages[j]? = some p →
        ∃ (p2 : ArticlePage), n2.pages[j]? = some p2 ∧
        p2.path = p.path ∧ p2.article.id = p.article.id ∧
        p2.article.related = p.article.related ∧
        ∃ (l : List (Option ArticlePage)),
          p2.article.relatedPages = p.article.relatedPages ++ l ∧
          l.length = p.article.related.length ∧
          ∀ (j2 : Nat) (link : String), p.article.related[j2]? = some link →
            ∃ pi, splitLink link = some pi ∧
              l[j2]? = some (resolvePath exOrphanTree pi.1 pi.2) :=
  c2_amended exOrphanTree exResolvedTree (by rfl) "blog" [] exOrphanNode (by rfl)

end ClaimsV2D

namespace V2

theorem lookupChild_setChild2_self (cs : List (String × RouteInfo)) (k : String)
    (v : RouteInfo) : lookupChild (setChild cs k v) k = some v := by
  induction cs with
  | nil => simp [setChild, lookupChild]
  | cons hd tl ih =>
    obtain ⟨k0, c0⟩ := hd
    by_cases h : k0 = k
    · simp [setChild, h, lookupChild]
    · simp [setChild, h, lookupChild, ih]

theorem lookupChild_setChild2_ne (cs : List (String × RouteInfo)) (k k2 : String)
    (v : RouteInfo) (h : k2 ≠ k) :
    lookupChild (setChild cs k v) k2 = lookupChild cs k2 := by
  induction cs with
  | nil => simp [setChild, lookupChild, Ne.symm h]
  | cons hd tl ih =>
    obtain ⟨k0, c0⟩ := hd
    by_cases hk : k0 = k
    · subst hk
      simp [setChild, lookupChild, Ne.symm h]
    · simp [setChild, hk, lookupChild, ih]

theorem pagesAt2_nil (r : RouteInfo) : pagesAt r [] = r.pages := by
  simp [pagesAt, descend]

theorem pagesAt2_mk_cons (ps : List ArticlePage) (lp : Option ListPage)
    (ip : Option IndexPage) (cs : List (String × RouteInfo)) (k : String) (q : List String) :
    pagesAt (.mk ps lp ip cs) (k :: q) =
      (match lookupChild cs k with
       | none => []
       | some c => pagesAt c q) := by
  cases h : lookupChild cs k <;> simp [pagesAt, descend, RouteInfo.children, h]

theorem pagesAt2_appendPage (c : RouteInfo) (p : ArticlePage) (q : List String) :
    pagesAt (RouteInfo.appendPage c p) q = if q = [] then c.pages ++ [p] else pagesAt c q := by
  cases c with
  | mk ps lp ip cs =>
    cases q with
    | nil => simp [RouteInfo.appendPage, pagesAt2_nil, RouteInfo.pages]
    | cons k q2 => simp [RouteInfo.appendPage, pagesAt2_mk_cons]

theorem pagesAt2_emptySite (q : List String) : pagesAt emptySite q = [] := by
  cases q <;> simp [emptySite, pagesAt2_nil, pagesAt2_mk_cons, RouteInfo.pages, lookupChild]

theorem pagesAt2_updateSegs (page : ArticlePage) (rest : List String) :
    ∀ (r : RouteInfo) (q : List String), rest ≠ [] →
      pagesAt (updateSegs (fun nn => nn.appendPage page) rest r) q =
        if q = rest then pagesAt r q ++ [page] else pagesAt r q := by
  induction rest with
  | nil =>
    intro r q h
    exact absurd rfl h
  | cons seg rest ih =>
    intro r q _
    cases r with
    | mk ps lp ip cs =>
      have haux : ∀ q2, pagesAt ((lookupChild cs seg).getD emptySite) q2 =
          pagesAt (RouteInfo.mk ps lp ip cs) (seg :: q2) := by
        intro q2
        cases hc : lookupChild cs seg with
        | some c => simp [hc, pagesAt2_mk_cons]
        | none => simp [hc, pagesAt2_mk_cons, pagesAt2_emptySite]
      cases rest with
      | nil =>
        rw [show updateSegs (fun nn => nn.appendPage page) [seg] (RouteInfo.mk ps lp ip cs) =
              RouteInfo.mk ps lp ip (setChild cs seg
                (((lookupChild cs seg).getD emptySite).appendPage page)) from rfl]
        cases q with
        | nil => simp [pagesAt2_nil, RouteInfo.pages]
        | cons k q2 =>
          by_cases hk : k = seg
          · subst hk
            rw [pagesAt2_mk_cons, lookupChild_setChild2_self]
            show pagesAt (((lookupChild cs k).getD emptySite).appendPage page) q2 = _
            rw [pagesAt2_appendPage]
            cases q2 with
            | nil =>
              rw [← pagesAt2_nil ((lookupChild cs k).getD emptySite), haux]
              simp
            | cons k2 q3 =>
              rw [haux]
              simp
          · rw [pagesAt2_mk_cons, lookupChild_setChild2_ne _ _ _ _ hk,
              ← pagesAt2_mk_cons ps lp ip]
            rw [if_neg (by
              intro hcontra
              exact hk (List.cons_eq_cons.mp hcontra).1)]
      | cons seg2 rest2 =>
        rw [show updateSegs (fun nn => nn.appendPage page) (seg :: seg2 :: rest2)
              (RouteInfo.mk ps lp ip cs) =
              RouteInfo.mk ps lp ip (setChild cs seg
                (updateSegs (fun nn => nn.appendPage page) (seg2 :: rest2)
                  ((lookupChild cs seg).getD emptySite))) from rfl]
        cases q with
        | nil =>
          rw [if_neg (by intro hcontra; exact List.noConfusion hcontra)]
          rw [pagesAt2_nil, pagesAt2_nil]
          rfl
        | cons k q2 =>
          by_cases hk : k = seg
          · subst hk
            rw [pagesAt2_mk_cons, lookupChild_setChild2_self]
            show pagesAt (updateSegs (fun nn => nn.appendPage page) (seg2 :: rest2)
              ((lookupChild cs k).getD emptySite)) q2 = _
            rw [ih ((lookupChild cs k).getD emptySite) q2 (by simp)]
            rw [haux q2]
            by_cases hq : q2 = seg2 :: rest2
            · simp [hq]
            · rw [if_neg hq, if_neg (by
                intro hcontra
                exact hq (List.cons_eq_cons.mp hcontra).2)]
          · rw [pagesAt2_mk_cons, lookupChild_setChild2_ne _ _ _ _ hk,
              ← pagesAt2_mk_cons ps lp ip]
            rw [if_neg (by
              intro hcontra
              exact hk (List.cons_eq_cons.mp hcontra).1)]

theorem pagesAt2_registerPage (t : RouteInfo) (page : ArticlePage)
    (hp : page.path ≠ "") (q : List String) :
    pagesAt (registerPage t page) q =
      if q = goSplit page.path '/' then pagesAt t q ++ [page] else pagesAt t q := by
  rw [registerPage, if_neg hp]
  exact pagesAt2_updateSegs page (goSplit page.path '/') t q (V1.goSplit_ne_nil _)

end V2

section ClaimsV2E

open V2

/-- C3 counterexample: a file path long enough to slice but not carrying
the expected content-root prefix aa/content is accepted by buildPage: the
call returns ok (no malformed-path error exists in the result type) and
registers a page computed from the blindly sliced remainder, mutating the
site model (the fresh site had no page under the resulting route). -/
theorem c3_counterexample :
    (buildPage (.ok exArticle) "bb/content/blog/post.md" "aa" .DirectRegister
      emptySite).isOk = true ∧
    ((buildPage (.ok exArticle) "bb/content/blog/post.md" "aa" .DirectRegister
        emptySite).site).map
      (fun s => (pagesAt s ["", "blog"]).map (fun p => p.article.id)) = some ["post"] ∧
    pagesAt emptySite ["", "blog"] = [] ∧
    "bb/content/blog/post.md".data.take ("aa" ++ "/" ++ ContentDir).data.length
      ≠ ("aa" ++ "/" ++ ContentDir).data := by
  refine ⟨rfl, rfl, rfl, by decide⟩

/-- C3 amended: buildPage never validates the content-root prefix and has
no malformed-path outcome, for every build path.  With a parsed article
in hand: in the BuildPath dot special case a file shorter than the
content directory name already faults in the prefix comparison slice;
otherwise the prefix length is that of BuildPath + slash + ContentDir
(shortened to the content directory alone in the dot case when the file
starts with it), a file shorter than that length faults in the remainder
slice (outOfRange, a run-time fault rather than an error value), and a
long enough file has that many characters stripped unconditionally —
whatever they are — and a page built from the remainder (its route being
filepath.Dir of it, Clean step included) is registered into the site
model, whose route gains exactly that page. -/
theorem c3_amended (a : Article) (file buildPath : String) (m : registerMode)
    (site : RouteInfo) :
    (buildPath = "." ∧ file.data.length < ContentDir.data.length →
      buildPage (.ok a) file buildPath m site = .outOfRange) ∧
    (¬(buildPath = "." ∧ file.data.length < ContentDir.data.length) →
      file.data.length < contentDirLenOf buildPath file →
      buildPage (.ok a) file buildPath m site = .outOfRange) ∧
    (∀ route id2,
      ¬(buildPath = "." ∧ file.data.length < ContentDir.data.length) →
      contentDirLenOf buildPath file ≤ file.data.length →
      route = dirOf ⟨file.data.drop (contentDirLenOf buildPath file)⟩ →
      id2 = trimSuffix (baseOf file) (extOf file) →
      id2 ≠ "index" → route ≠ "" →
      buildPage (.ok a) file buildPath m site =
        .ok (registerPage site (.mk route (a.setId id2))) (.mk route (a.setId id2)) ∧
      pagesAt (registerPage site (.mk route (a.setId id2))) (goSplit route '/') =
        pagesAt site (goSplit route '/') ++ [ArticlePage.mk route (a.setId id2)]) := by
  refine ⟨?_, ?_, ?_⟩
  · intro hc
    rw [buildPage]
    rw [if_pos hc]
  · intro h1 hshort
    rw [buildPage]
    rw [if_neg h1]
    rw [if_pos hshort]
  · intro route id2 h1 hlong hroute hid2 hidx hne
    have hres : buildPage (.ok a) file buildPath m site =
        .ok (registerPage site (.mk route (a.setId id2))) (.mk route (a.setId id2)) := by
      rw [buildPage]
      rw [if_neg h1]
      rw [if_neg (by omega)]
      simp only []
      rw [← hroute, ← hid2, if_neg hidx]
    refine ⟨hres, ?_⟩
    rw [pagesAt2_registerPage site (.mk route (a.setId id2)) hne (goSplit route '/')]
    rw [show (ArticlePage.mk route (a.setId id2)).path = route from rfl, if_pos rfl]

/-- C3 witness: the amended statement applied concretely.  A file with the
mismatched prefix bb/content is accepted and registered under /blog; a
remainder with a doubled slash registers under the cleaned route /a
(filepath.Dir of /a//b.md); a remainder with a dotdot element registers
under the cleaned route /b (filepath.Dir of /a/../b/c.md); the BuildPath
dot special case strips only the content prefix; and both slice faults
(the dot case with a file shorter than the content directory name, and
the general case with a file shorter than the full prefix) yield the
out-of-range outcome. -/
theorem c3_witness :
    buildPage (.ok exArticle) "bb/content/blog/post.md" "aa" .DirectRegister emptySite =
      .ok (registerPage emptySite (.mk "/blog" (exArticle.setId "post")))
        (.mk "/blog" (exArticle.setId "post")) ∧
    pagesAt (registerPage emptySite (.mk "/blog" (exArticle.setId "post")))
        (goSplit "/blog" '/') =
      pagesAt emptySite (goSplit "/blog" '/')
        ++ [ArticlePage.mk "/blog" (exArticle.setId "post")] ∧
    buildPage (.ok exArticle) "aa/content/a//b.md" "aa" .DirectRegister emptySite =
      .ok (registerPage emptySite (.mk "/a" (exArticle.setId "b")))
        (.mk "/a" (exArticle.setId "b")) ∧
    buildPage (.ok exArticle) "aa/content/a/../b/c.md" "aa" .DirectRegister emptySite =
      .ok (registerPage emptySite (.mk "/b" (exArticle.setId "c")))
        (.mk "/b" (exArticle.setId "c")) ∧
    buildPage (.ok exArticle) "content/blog/post.md" "." .DirectRegister emptySite =
      .ok (registerPage emptySite (.mk "/blog" (exArticle.setId "post")))
        (.mk "/blog" (exArticle.setId "post")) ∧
    buildPage (.ok exArticle) "a.md" "." .DirectRegister emptySite = .outOfRange ∧
    buildPage (.ok exArticle) "a.md" "aa" .DirectRegister emptySite = .outOfRange := by
  refine ⟨?_, ?_, ?_, ?_, ?_, ?_, ?_⟩
  · exact ((c3_amended exArticle "bb/content/blog/post.md" "aa" .DirectRegister
      emptySite).2.2 "/blog" "post" (by decide) (by decide) (by rfl) (by rfl)
      (by decide) (by decide)).1
  · exact ((c3_amended exArticle "bb/content/blog/post.md" "aa" .DirectRegister
      emptySite).2.2 "/blog" "post" (by decide) (by decide) (by rfl) (by rfl)
      (by decide) (by decide)).2
  · exact ((c3_amended exArticle "aa/content/a//b.md" "aa" .DirectRegister
      emptySite).2.2 "/a" "b" (by decide) (by decide) (by rfl) (by rfl)
      (by decide) (by decide)).1
  · exact ((c3_amended exArticle "aa/content/a/../b/c.md" "aa" .DirectRegister
      emptySite).2.2 "/b" "c" (by decide) (by decide) (by rfl) (by rfl)
      (by decide) (by decide)).1
  · exact ((c3_amended exArticle "content/blog/post.md" "." .DirectRegister
      emptySite).2.2 "/blog" "post" (by decide) (by decide) (by rfl) (by rfl)
      (by decide) (by decide)).1
  · exact (c3_amended exArticle "a.md" "." .DirectRegister emptySite).1 (by decide)
  · exact (c3_amended exArticle "a.md" "aa" .DirectRegister emptySite).2.1 (by decide)
      (by decide)

end ClaimsV2E

end Espresso
